import Mathlib

/-!
Verification development for the figma-mcp-server retrieval core.

This file is a shallow embedding, in Lean 4, of the Python modules
`src/search_engine.py`, `src/expand_engine.py`, `src/preview_generator.py`,
`src/query_normalizer.py` and `src/cross_linker.py` of the repository
bbssppllvv/figma-mcp-server, together with theorems settling the claims of
the specification.

Modelling conventions:
  * Python strings are Lean `String`s; character-level work happens on
    `List Char`.  Python `str.lower`, `str.strip`, `str.split` etc. are
    modelled for ASCII (the corpus and all constants in the code are ASCII;
    Unicode-only differences are irrelevant to every claim).
  * The SQLite store is a record of lists of rows (`pages`, `chunks`,
    `embeddings`); SQL queries become filters/joins/sorts over those lists.
    SQLite `LIKE` is modelled with its wildcard and ASCII case-insensitive
    semantics (`sqlLikeMatch`).  `ORDER BY` is modelled with
    `List.insertionSort` (a stable sort; for the orders appearing in the
    claims either the keys are distinct or no claim depends on tie order).
    `ORDER BY RANDOM()` is modelled by an explicit reordering parameter.
  * Python floats are modelled as `ℚ`.  All constants in the code
    (0.1, 0.5, 0.8, …) are exact in the model; no settled claim depends on
    low-order floating-point rounding (score values are only compared, and
    the length-bound claims are robust to the 0.8/0.6 threshold encodings).
  * Fallible code (the one real exception source on the search path, the
    `ZeroDivisionError` in `keyword_search`) is modelled with `Except`.
  * `hash(content[:500])` in the cross-linker cache is modelled by keying
    the cache on the 500-character prefix itself (equal prefixes give equal
    keys, which is the property the code relies on).
-/

namespace FigmaMCP

/-! ### Python / SQL string primitives -/

/-- ASCII lower-casing of one character (models Python `str.lower` on the
ASCII characters actually occurring in the corpus and code constants). -/
def charLower (c : Char) : Char :=
  if 'A' ≤ c ∧ c ≤ 'Z' then Char.ofNat (c.toNat + 32) else c

/-- Python whitespace (`str.split()` / `str.strip()` / regex `\s`), ASCII part. -/
def isPyWs (c : Char) : Bool :=
  c = ' ' ∨ c = '\t' ∨ c = '\n' ∨ c = '\r' ∨ c = Char.ofNat 11 ∨ c = Char.ofNat 12

def isAsciiUpper (c : Char) : Bool := 'A' ≤ c ∧ c ≤ 'Z'

def isAsciiLower (c : Char) : Bool := 'a' ≤ c ∧ c ≤ 'z'

def isAsciiAlpha (c : Char) : Bool := isAsciiUpper c ∨ isAsciiLower c

def isAsciiDigit (c : Char) : Bool := '0' ≤ c ∧ c ≤ '9'

def isAlnum (c : Char) : Bool := isAsciiAlpha c ∨ isAsciiDigit c

/-- Regex `\w`: letters, digits, underscore. -/
def isWordChar (c : Char) : Bool := isAlnum c ∨ c = '_'

def isHexDigit (c : Char) : Bool :=
  isAsciiDigit c ∨ ('a' ≤ c ∧ c ≤ 'f') ∨ ('A' ≤ c ∧ c ≤ 'F')

def lowerList (l : List Char) : List Char := l.map charLower

/-- Python `str.lower()` (ASCII model). -/
def pyLower (s : String) : String := String.mk (lowerList s.data)

/-- Python `str.strip()` (ASCII whitespace model). -/
def stripList (l : List Char) : List Char :=
  ((l.dropWhile isPyWs).reverse.dropWhile isPyWs).reverse

def pyStrip (s : String) : String := String.mk (stripList s.data)

/-- Worker for `splitWs`: `cur` accumulates the current word reversed. -/
def splitWsGo (cur : List Char) : List Char → List (List Char)
  | [] => if cur.isEmpty then [] else [cur.reverse]
  | c :: rest =>
    if isPyWs c then
      if cur.isEmpty then splitWsGo [] rest else cur.reverse :: splitWsGo [] rest
    else splitWsGo (c :: cur) rest

/-- Python `str.split()` with no argument: runs of whitespace separate
words, empty pieces are dropped. -/
def splitWs (l : List Char) : List (List Char) := splitWsGo [] l

/-- Word count of a Python string: `len(s.split())`. -/
def wordCount (s : String) : Nat := (splitWs s.data).length

/-- Case-sensitive substring test (Python `needle in hay`). -/
def containsSub (hay needle : List Char) : Bool :=
  match hay with
  | [] => needle.isEmpty
  | _ :: t => needle.isPrefixOf hay || containsSub t needle

/-- Python `needle in hay` on strings. -/
def pyContains (hay needle : String) : Bool := containsSub hay.data needle.data

/-- Non-overlapping occurrence count, Python `hay.count(needle)` semantics
(including `count("") = len + 1`). -/
def countOccurF : Nat → List Char → List Char → Nat
  | 0, _, _ => 0
  | fuel + 1, hay, needle =>
    match needle with
    | [] => hay.length + 1
    | n :: ns =>
      match hay with
      | [] => 0
      | h :: t =>
        if (n :: ns).isPrefixOf (h :: t) then
          1 + countOccurF fuel ((h :: t).drop (n :: ns).length) (n :: ns)
        else countOccurF fuel t (n :: ns)

def countOccur (hay needle : List Char) : Nat := countOccurF (hay.length + 1) hay needle

/-- Index of the last occurrence of `needle` in `hay`, Python `str.rfind`
semantics: `-1` when absent. -/
def rfindSub (hay needle : List Char) : Int :=
  match hay with
  | [] => if needle.isEmpty then 0 else -1
  | _ :: t =>
    let r := rfindSub t needle
    if 0 ≤ r then r + 1
    else if needle.isPrefixOf hay then 0 else -1

/-- First index of `needle` in `hay`, or `none` (used by the lazy regex
captures). -/
def findSubIdx (hay needle : List Char) : Option Nat :=
  match hay with
  | [] => if needle.isEmpty then some 0 else none
  | _ :: t =>
    if needle.isPrefixOf hay then some 0
    else (findSubIdx t needle).map (· + 1)

/-- Python `sep.join(parts)` at character level. -/
def joinWith (sep : List Char) : List (List Char) → List Char
  | [] => []
  | [x] => x
  | x :: y :: rest => x ++ sep ++ joinWith sep (y :: rest)

/-- Python `s.split(sep)` for a non-empty separator string (keeps empty
pieces, splits at each non-overlapping occurrence from the left). -/
def splitOnSubF : Nat → List Char → List Char → List (List Char)
  | 0, _, _ => [[]]
  | fuel + 1, hay, sep =>
    match hay with
    | [] => [[]]
    | h :: t =>
      if sep = [] then [h :: t]
      else if sep.isPrefixOf (h :: t) then [] :: splitOnSubF fuel ((h :: t).drop sep.length) sep
      else
        match splitOnSubF fuel t sep with
        | [] => [[h]]
        | piece :: rest => (h :: piece) :: rest

def splitOnSub (hay sep : List Char) : List (List Char) :=
  splitOnSubF (hay.length + 1) hay sep

/-- SQLite `LIKE` matcher: `%` matches any sequence, `_` any one character,
other characters match ASCII case-insensitively (SQLite's default). -/
def sqlLikeMatchF : Nat → List Char → List Char → Bool
  | 0, _, _ => false
  | fuel + 1, p, ts =>
    match p with
    | [] => ts.isEmpty
    | '%' :: ps =>
      sqlLikeMatchF fuel ps ts ||
        (match ts with
         | [] => false
         | _ :: ts' => sqlLikeMatchF fuel ('%' :: ps) ts')
    | '_' :: ps =>
      (match ts with
       | [] => false
       | _ :: ts' => sqlLikeMatchF fuel ps ts')
    | c :: ps =>
      (match ts with
       | [] => false
       | t :: ts' => charLower c = charLower t && sqlLikeMatchF fuel ps ts')

def sqlLikeMatch (p ts : List Char) : Bool := sqlLikeMatchF (p.length + ts.length + 1) p ts

/-- `hay LIKE '%' || frag || '%'` (the shape every LIKE in the code has). -/
def sqlLike (hay frag : String) : Bool :=
  sqlLikeMatch ('%' :: (frag.data ++ ['%'])) hay.data

/-! ### Regex scanners

Each Python regex used by the repository is hand-compiled to a scanner.
`scanAll` models `re.findall`: it tries a match at every position from the
left, and on success emits the capture and resumes after the match
(non-overlapping).  `prev` is the character before the current position,
used for `\b` word boundaries and MULTILINE `^` anchors.  All patterns in
the code match at least one character; `max k 1` below only serves the
termination argument. -/

def scanAllF {ρ : Type} (step : Option Char → List Char → Option (ρ × Nat)) :
    Nat → Option Char → List Char → List ρ
  | 0, _, _ => []
  | fuel + 1, prev, l =>
    match l with
    | [] => []
    | c :: rest =>
      match step prev (c :: rest) with
      | some (cap, k) =>
        let adv := max k 1
        cap :: scanAllF step fuel (((c :: rest).take adv).getLast?) ((c :: rest).drop adv)
      | none => scanAllF step fuel (some c) rest

def scanAll {ρ : Type} (step : Option Char → List Char → Option (ρ × Nat))
    (prev : Option Char) (l : List Char) : List ρ :=
  scanAllF step (l.length + 1) prev l

/-- `\b` at the start of a match whose first character is a word character:
the previous character must not be a word character. -/
def wordBoundary (prev : Option Char) : Bool :=
  match prev with
  | none => true
  | some c => ¬ isWordChar c

/-- MULTILINE `^`: start of input or just after a newline. -/
def lineStart (prev : Option Char) : Bool :=
  match prev with
  | none => true
  | some c => c = '\n'

/-- `pat` (given lower-case) is a case-insensitive prefix of `l`
(models a literal chunk of an `re.IGNORECASE` pattern). -/
def ciPrefix (pat l : List Char) : Bool := pat.isPrefixOf (lowerList l)

/-- Greedy `(?:\.[A-Za-z][A-Za-z0-9_]*)*`: number of characters consumed by
dotted trailing segments (cross-linker / preview symbol pattern). -/
def figSegsBF : Nat → List Char → Nat
  | 0, _ => 0
  | fuel + 1, l =>
    match l with
    | '.' :: c :: rest =>
      if isAsciiAlpha c then
        let seg := List.takeWhile isWordChar rest
        2 + seg.length + figSegsBF fuel (rest.drop seg.length)
      else 0
    | _ => 0

def figSegsB (l : List Char) : Nat := figSegsBF (l.length + 1) l

/-- `\bfigma\.[A-Za-z][A-Za-z0-9_]*(?:\.[A-Za-z][A-Za-z0-9_]*)*` with
`re.IGNORECASE` (cross_linker.py line 32, preview_generator.py line 45). -/
def stepFigB (prev : Option Char) (l : List Char) : Option (List Char × Nat) :=
  if wordBoundary prev ∧ ciPrefix "figma.".data l then
    match l.drop 6 with
    | c :: rest2 =>
      if isAsciiAlpha c then
        let seg := List.takeWhile isWordChar rest2
        let n := 7 + seg.length + figSegsB (rest2.drop seg.length)
        some (l.take n, n)
      else none
    | [] => none
  else none

/-- `\bfigma\.[a-zA-Z][a-zA-Z0-9_.]*` with `re.IGNORECASE`
(search_engine.py line 65: dots live inside the character class). -/
def stepFigA (prev : Option Char) (l : List Char) : Option (List Char × Nat) :=
  if wordBoundary prev ∧ ciPrefix "figma.".data l then
    match l.drop 6 with
    | c :: rest2 =>
      if isAsciiAlpha c then
        let run := List.takeWhile (fun d => isAlnum d ∨ d = '_' ∨ d = '.') rest2
        some (l.take (7 + run.length), 7 + run.length)
      else none
    | [] => none
  else none

/-- `\b[A-Z][a-zA-Z0-9]*Sfx\b` with `re.IGNORECASE` (so `[A-Z]` matches any
letter): an alphanumeric word, at word boundaries on both sides, of length
`> sfx.length`, ending case-insensitively in `sfx` (`Node` / `Event`
patterns). The greedy star plus backtracking match exactly the whole word. -/
def stepSuffixWord (sfx : List Char) (prev : Option Char) (l : List Char) :
    Option (List Char × Nat) :=
  if wordBoundary prev then
    match l with
    | c :: _ =>
      if isAsciiAlpha c then
        let run := List.takeWhile isAlnum l
        let nxt := (l.drop run.length).head?
        if (match nxt with | none => true | some d => ¬ isWordChar d) then
          if run.length ≥ sfx.length + 1 ∧
              lowerList (run.drop (run.length - sfx.length)) = sfx then
            some (run, run.length)
          else none
        else none
      else none
    | [] => none
  else none

/-- A literal word/phrase pattern `\blit\b` (optionally without the closing
boundary), `re.IGNORECASE`; `lit` is given lower-case. -/
def stepLitB (lit : List Char) (endB : Bool) (prev : Option Char) (l : List Char) :
    Option (List Char × Nat) :=
  if wordBoundary prev ∧ ciPrefix lit l then
    if endB then
      match (l.drop lit.length).head? with
      | some d => if isWordChar d then none else some (l.take lit.length, lit.length)
      | none => some (l.take lit.length, lit.length)
    else some (l.take lit.length, lit.length)
  else none

/-- `\blit\.[a-zA-Z]+` with `re.IGNORECASE` (`clientStorage.` / `ui.`
accessor patterns); `lit` is given lower-case without the dot. -/
def stepLitDotAlpha (lit : List Char) (prev : Option Char) (l : List Char) :
    Option (List Char × Nat) :=
  if wordBoundary prev ∧ ciPrefix (lit ++ ['.']) l then
    let run := List.takeWhile isAsciiAlpha (l.drop (lit.length + 1))
    if run.isEmpty then none
    else some (l.take (lit.length + 1 + run.length), lit.length + 1 + run.length)
  else none

/-- Models `list(set(xs))`: duplicates removed.  CPython's set iteration
order is implementation-defined; the model fixes the first-seen order.  No
settled claim depends on the enumeration order of these sets. -/
def dedupSeen (seen : List String) : List String → List String
  | [] => []
  | x :: xs => if x ∈ seen then dedupSeen seen xs else x :: dedupSeen (x :: seen) xs

def dedupKeepFirst (l : List String) : List String := dedupSeen [] l

/-- search_engine.py `extract_api_symbols_from_query`: five IGNORECASE
patterns scanned in order, then `list(set(...))`. -/
def extract_api_symbols_from_query (query : String) : List String :=
  let t := query.data
  let ms :=
    scanAll stepFigA none t ++
    scanAll (stepSuffixWord "node".data) none t ++
    scanAll (stepLitB "clientstorage".data true) none t ++
    scanAll (stepLitB "ui.postmessage".data true) none t ++
    scanAll (stepLitB "showui".data true) none t
  dedupKeepFirst (ms.map String.mk)

/-- preview_generator.py `extract_api_symbols_from_text`: the dotted
`figma.` pattern with IGNORECASE, `list(set(...))`. -/
def extract_api_symbols_from_text (text : String) : List String :=
  dedupKeepFirst ((scanAll stepFigB none text.data).map String.mk)

/-! ### preview_generator.py -/

def backquote : Char := Char.ofNat 96

def lbraceChar : Char := Char.ofNat 123

/-- Code-block pattern 1: ```` ```[\w]*\n(.*?)\n``` ```` with DOTALL (lazy
body up to the first closing fence). -/
def stepFence (_prev : Option Char) (l : List Char) : Option (List Char × Nat) :=
  if ([backquote, backquote, backquote]).isPrefixOf l then
    let rest1 := l.drop 3
    let lang := List.takeWhile isWordChar rest1
    match (rest1.drop lang.length) with
    | '\n' :: body =>
      match findSubIdx body ('\n' :: [backquote, backquote, backquote]) with
      | some i => some (body.take i, 3 + lang.length + 1 + i + 4)
      | none => none
    | _ => none
  else none

/-- Code-block pattern 2: `` `([^`\n]+)` `` (inline code). -/
def stepInline (_prev : Option Char) (l : List Char) : Option (List Char × Nat) :=
  match l with
  | c :: rest =>
    if c = backquote then
      let body := List.takeWhile (fun d => d ≠ backquote ∧ d ≠ '\n') rest
      match (rest.drop body.length).head? with
      | some d => if d = backquote ∧ body ≠ [] then some (body, body.length + 2) else none
      | none => none
    else none
  | [] => none

/-- Code-block pattern 3: `^\s*([a-zA-Z_][a-zA-Z0-9_]*\s*\([^)]*\)\s*[{;])`
with MULTILINE (function-definition shapes). -/
def stepFuncDef (prev : Option Char) (l : List Char) : Option (List Char × Nat) :=
  if lineStart prev then
    let ws := List.takeWhile isPyWs l
    let r1 := l.drop ws.length
    match r1.head? with
    | some c =>
      if isAsciiAlpha c ∨ c = '_' then
        let ident := List.takeWhile isWordChar r1
        let r2 := r1.drop ident.length
        let ws2 := List.takeWhile isPyWs r2
        match r2.drop ws2.length with
        | '(' :: r4 =>
          let args := List.takeWhile (fun d => d ≠ ')') r4
          match r4.drop args.length with
          | ')' :: r5 =>
            let ws3 := List.takeWhile isPyWs r5
            match (r5.drop ws3.length).head? with
            | some d =>
              if d = lbraceChar ∨ d = ';' then
                let cap := ident ++ ws2 ++ ['('] ++ args ++ [')'] ++ ws3 ++ [d]
                some (cap, ws.length + cap.length)
              else none
            | none => none
          | _ => none
        | _ => none
      else none
    | none => none
  else none

/-- Backtracking tail of pattern 4: `\s+([^=\n]+)` after the keyword.  The
greedy `\s+` is tried from the longest whitespace run down; returns the
second capture group and the consumed length. -/
def declTailAux (rest : List Char) : Nat → Option (List Char × Nat)
  | 0 => none
  | j + 1 =>
    let g2 := List.takeWhile (fun c => c ≠ '=' ∧ c ≠ '\n') (rest.drop (j + 1))
    if g2.isEmpty then declTailAux rest j else some (g2, (j + 1) + g2.length)

/-- Code-block pattern 4: `^\s*(const|let|var|function)\s+([^=\n]+)` with
MULTILINE (two capture groups, tried keyword by keyword in order). -/
def stepDecl (prev : Option Char) (l : List Char) :
    Option ((List Char × List Char) × Nat) :=
  if lineStart prev then
    let ws := List.takeWhile isPyWs l
    let r1 := l.drop ws.length
    let tryKw := fun (kw : List Char) =>
      if kw.isPrefixOf r1 then
        let rest := r1.drop kw.length
        let wsr := List.takeWhile isPyWs rest
        (declTailAux rest wsr.length).map fun (g2, k) =>
          ((kw, g2), ws.length + kw.length + k)
      else none
    ((tryKw "const".data).orElse fun _ => (tryKw "let".data).orElse fun _ =>
      (tryKw "var".data).orElse fun _ => tryKw "function".data)
  else none

/-- Code-block pattern 5: `^\s*(figma\.[a-zA-Z][a-zA-Z0-9_.]*)` with
MULTILINE (case-sensitive; `extract_code_blocks` passes no IGNORECASE). -/
def stepFigLine (prev : Option Char) (l : List Char) : Option (List Char × Nat) :=
  if lineStart prev then
    let ws := List.takeWhile isPyWs l
    let r1 := l.drop ws.length
    if "figma.".data.isPrefixOf r1 then
      match r1.drop 6 with
      | c :: rest2 =>
        if isAsciiAlpha c then
          let run := List.takeWhile (fun d => isAlnum d ∨ d = '_' ∨ d = '.') rest2
          some ("figma.".data ++ c :: run, ws.length + 7 + run.length)
        else none
      | [] => none
    else none
  else none

/-- preview_generator.py `extract_code_blocks`: five MULTILINE|DOTALL
patterns in order; single-group matches are stripped, tuple elements are
kept as matched but dropped when blank; finally keep blocks longer than
10 characters. -/
def extract_code_blocks (text : String) : List String :=
  let t := text.data
  let m1 := (scanAll stepFence none t).map stripList
  let m2 := (scanAll stepInline none t).map stripList
  let m3 := (scanAll stepFuncDef none t).map stripList
  let m4 := (scanAll stepDecl none t).flatMap fun (g : List Char × List Char) =>
    (if (stripList g.1).isEmpty then [] else [g.1]) ++
    (if (stripList g.2).isEmpty then [] else [g.2])
  let m5 := (scanAll stepFigLine none t).map stripList
  ((m1 ++ m2 ++ m3 ++ m4 ++ m5).filter (fun b => b.length > 10)).map String.mk

/-- Split driver for `split_into_sentences`: the split point of
`(?<=[.!?])\s+(?=[A-Z])` is a maximal whitespace run preceded by
`.`/`!`/`?` and followed by an upper-case letter; the run is dropped. -/
def sentPunct (prev : Option Char) : Bool :=
  match prev with
  | some p => p = '.' ∨ p = '!' ∨ p = '?'
  | none => false

def headUpper (l : List Char) : Bool :=
  match l.head? with
  | some d => isAsciiUpper d
  | none => false

def splitSentGoF : Nat → List Char → Option Char → List Char → List (List Char)
  | 0, cur, _, _ => [cur.reverse]
  | fuel + 1, cur, prev, l =>
    match l with
    | [] => [cur.reverse]
    | c :: rest =>
      if sentPunct prev ∧ isPyWs c then
        let run := List.takeWhile isPyWs (c :: rest)
        let after := (c :: rest).drop run.length
        if headUpper after then
          cur.reverse :: splitSentGoF fuel [] run.getLast? after
        else splitSentGoF fuel (c :: cur) (some c) rest
      else splitSentGoF fuel (c :: cur) (some c) rest

def splitSentGo (cur : List Char) (prev : Option Char) (l : List Char) :
    List (List Char) :=
  splitSentGoF (l.length + 1) cur prev l

/-- preview_generator.py `split_into_sentences`: regex split, then keep
stripped sentences longer than 15 characters. -/
def split_into_sentences (text : String) : List String :=
  (((splitSentGo [] none text.data).map stripList).filter
    (fun s => s.length > 15)).map String.mk

/-- The `useful_words` list of `calculate_sentence_relevance_score`. -/
def usefulWords : List String :=
  ["create", "export", "load", "set", "get", "add", "remove", "update",
   "async", "await", "function", "method", "property", "example"]

/-- The `technical_starts` list of `calculate_sentence_relevance_score`. -/
def technicalStarts : List String :=
  ["set to null", "supported on:", "info", "this api is only",
   "value must be", "deprecated", "warning", "note:"]

/-- preview_generator.py `calculate_sentence_relevance_score`
(`query_words` are already lower-cased, as produced by the caller).  All
contributions are integral, so the Python float score is an exact integer,
modelled in `ℤ`. -/
def calculate_sentence_relevance_score (sentence : String) (query_words : List String) : ℤ :=
  let sl := lowerList sentence.data
  let s1 : ℤ := query_words.foldl
    (fun acc w =>
      if containsSub sl w.data then
        acc + 10 + (if w.data.isPrefixOf sl then 5 else 0)
      else acc) 0
  let s2 : ℤ := s1 + 8 * ((extract_api_symbols_from_text sentence).length : ℤ)
  let s3 : ℤ := usefulWords.foldl
    (fun acc w => if containsSub sl w.data then acc + 2 else acc) s2
  let s4 : ℤ := technicalStarts.foldl
    (fun acc w => if w.data.isPrefixOf sl then acc - 5 else acc) s3
  let s5 : ℤ := if sentence.data.length > 300 then s4 - 3 else s4
  if 50 ≤ sentence.data.length ∧ sentence.data.length ≤ 200 then s5 + 2 else s5

/-- `re.sub(r'\n\s*\n', '\n', s)`: a newline followed by a (greedy,
backtracked) whitespace run containing another newline collapses to one
newline; scanning resumes after the last newline of the run. -/
def collapseBlankLinesF : Nat → List Char → List Char
  | 0, l => l
  | fuel + 1, l =>
    match l with
    | [] => []
    | c :: rest =>
      if c = '\n' then
        let run := List.takeWhile isPyWs rest
        let i := rfindSub run ['\n']
        if 0 ≤ i then '\n' :: collapseBlankLinesF fuel (rest.drop (i.toNat + 1))
        else c :: collapseBlankLinesF fuel rest
      else c :: collapseBlankLinesF fuel rest

def collapseBlankLines (l : List Char) : List Char := collapseBlankLinesF (l.length + 1) l

/-- The line-accumulation loop of `format_code_preview`: keep whole lines
while the running length stays within 80% of the budget
(`x > max_length * 0.8` encoded as the exact `5 * x > 4 * max_length`). -/
def fcpLines (maxL : Nat) : List (List Char) → Nat → List (List Char)
  | [], _ => []
  | l :: ls, cur =>
    if (5 * (cur + l.length + 1) > 4 * maxL) then []
    else l :: fcpLines maxL ls (cur + l.length + 1)

/-- preview_generator.py `format_code_preview`. -/
def format_code_preview (code_block : String) (max_length : Nat) : String :=
  let cb := collapseBlankLines (stripList code_block.data)
  if cb.length ≤ max_length then String.mk cb
  else
    let lines := splitOnSub cb ['\n']
    let kept := fcpLines max_length lines 0
    if kept.isEmpty then String.mk (cb.take max_length ++ "...".data)
    else String.mk (joinWith ['\n'] kept ++ ('\n' :: "...".data))

/-- The sentence-end search of `truncate_smart`: the best cut position
after a sentence-ending punctuation-plus-space beyond 60% of the budget
(`pos > max_length * 0.6` encoded as the exact `5 * pos > 3 * max_length`). -/
def bestSentenceEnd (truncated : List Char) (max_length : Nat) : Int :=
  ['.', '!', '?'].foldl
    (fun acc c =>
      let pos := rfindSub truncated [c, ' ']
      if (5 * pos > 3 * (max_length : Int)) then max acc (pos + 1) else acc)
    (-1)

/-- preview_generator.py `truncate_smart`. -/
def truncate_smart (text : String) (max_length : Nat) : String :=
  if text.data.length ≤ max_length then text
  else
    let truncated := text.data.take max_length
    let bestEnd : Int := bestSentenceEnd truncated max_length
    if bestEnd > 0 then String.mk (stripList (text.data.take bestEnd.toNat))
    else
      let lastSpace := rfindSub truncated [' ']
      let t2 := if (5 * lastSpace > 4 * (max_length : Int)) then
          truncated.take lastSpace.toNat
        else truncated
      String.mk (stripList t2 ++ ['…'])

/-- Worker for `collapseWsRuns`: the flag records being inside a
whitespace run already replaced by one space. -/
def collapseWsGo : Bool → List Char → List Char
  | _, [] => []
  | inRun, c :: rest =>
    if isPyWs c then
      if inRun then collapseWsGo true rest else ' ' :: collapseWsGo true rest
    else c :: collapseWsGo false rest

/-- `re.sub(r'\s+', ' ', s)`. -/
def collapseWsRuns (l : List Char) : List Char := collapseWsGo false l

/-- The cleaning prelude of `create_smart_preview`: control characters
(`[\x00-\x1f\x7f-\x9f]`) become spaces, whitespace runs collapse to a
single space, then strip. -/
def cleanText (l : List Char) : List Char :=
  let noCtrl := l.map fun c =>
    if c.toNat ≤ 31 ∨ (127 ≤ c.toNat ∧ c.toNat ≤ 159) then ' ' else c
  stripList (collapseWsRuns noCtrl)

/-- The API markers of the code-block branch of `create_smart_preview`. -/
def codeApiMarkers : List String := ["figma.", "async", "await", "function"]

/-- The best-sentence selection loop of `create_smart_preview` (strictly
better scores win, so the first sentence with the maximal adjusted score is
kept; positional bonus +5 for the first sentence, +3 for the second). -/
def bestSentence (sentences : List String) (query_words : List String) :
    ℤ × Option String :=
  (sentences.enum.foldl
    (fun acc si =>
      let score := calculate_sentence_relevance_score si.2 query_words +
        (if si.1 = 0 then 5 else if si.1 = 1 then 3 else 0)
      if score > acc.1 then (score, some si.2) else acc)
    ((-1 : ℤ), none))

/-- The paragraph-fallback loop of `create_smart_preview`. -/
def firstPara (query_words : List String) (max_length : Nat) :
    List (List Char) → Option String
  | [] => none
  | para :: rest =>
    let p := stripList para
    if p.length < 50 then firstPara query_words max_length rest
    else
      let pl := lowerList p
      if ¬ query_words.isEmpty ∧ query_words.any (fun w => containsSub pl w.data) then
        some (truncate_smart (String.mk p) max_length)
      else if containsSub pl "figma.".data then
        some (truncate_smart (String.mk p) max_length)
      else firstPara query_words max_length rest

/-- preview_generator.py `create_smart_preview`. -/
def create_smart_preview (text₀ : String) (query : String) (max_length : Nat) : String :=
  let text := String.mk (cleanText text₀.data)
  if text.data.length ≤ max_length then text
  else
    let query_words := ((splitWs query.data).filter (fun w => w.length > 2)).map
      (fun w => String.mk (lowerList w))
    let code_blocks := extract_code_blocks text
    match code_blocks.find? (fun cb =>
        codeApiMarkers.any (fun a => containsSub (lowerList cb.data) a.data) ∧
        (query_words.any (fun w => containsSub (lowerList cb.data) w.data) ∨
          query_words.isEmpty)) with
    | some cb => format_code_preview cb max_length
    | none =>
      let sentences := split_into_sentences text
      let bs := bestSentence sentences query_words
      match bs.2 with
      | some s =>
        if bs.1 > 0 then truncate_smart s max_length
        else
          match firstPara query_words max_length (splitOnSub text.data "\n\n".data) with
          | some r => r
          | none => truncate_smart text max_length
      | none =>
        match firstPara query_words max_length (splitOnSub text.data "\n\n".data) with
        | some r => r
        | none => truncate_smart text max_length

/-! ### query_normalizer.py

The alias table is a dict `alias (lower, stripped) → canonical`, built by
`load_aliases`; a missing or malformed YAML file leaves it empty.  It is
modelled as an association list with distinct keys, in insertion order
(Python dicts preserve insertion order). -/

def charUpper (c : Char) : Char :=
  if 'a' ≤ c ∧ c ≤ 'z' then Char.ofNat (c.toNat - 32) else c

/-- Python `str.capitalize()`: first character upper-cased, rest lower-cased. -/
def pyCapitalize (w : List Char) : List Char :=
  match w with
  | [] => []
  | c :: t => charUpper c :: lowerList t

/-- query_normalizer.py `_to_camel_case`. -/
def to_camel_case (snake_str : String) : String :=
  match splitOnSub snake_str.data ['_'] with
  | [] => ""
  | c0 :: rest => String.mk (c0 ++ (rest.map pyCapitalize).flatten)

/-- First substitution of `_to_snake_case`:
`re.sub('(.)([A-Z][a-z]+)', r'\1_\2', s)` (`.` does not match a newline). -/
def snakeSub1F : Nat → List Char → List Char
  | 0, l => l
  | fuel + 1, l =>
    match l with
    | [] => []
    | c1 :: rest =>
      match rest with
      | c2 :: rest2 =>
        if c1 ≠ '\n' ∧ isAsciiUpper c2 then
          let run := List.takeWhile isAsciiLower rest2
          if run.isEmpty then c1 :: snakeSub1F fuel (c2 :: rest2)
          else c1 :: '_' :: c2 :: (run ++ snakeSub1F fuel (rest2.drop run.length))
        else c1 :: snakeSub1F fuel (c2 :: rest2)
      | [] => [c1]

def snakeSub1 (l : List Char) : List Char := snakeSub1F (l.length + 1) l

/-- Second substitution of `_to_snake_case`:
`re.sub('([a-z0-9])([A-Z])', r'\1_\2', s)`. -/
def snakeSub2 : List Char → List Char
  | [] => []
  | c1 :: rest =>
    match rest with
    | c2 :: rest2 =>
      if (isAsciiLower c1 ∨ isAsciiDigit c1) ∧ isAsciiUpper c2 then
        c1 :: '_' :: c2 :: snakeSub2 rest2
      else c1 :: snakeSub2 (c2 :: rest2)
    | [] => [c1]

/-- query_normalizer.py `_to_snake_case`. -/
def to_snake_case (camel_str : String) : String :=
  pyLower (String.mk (snakeSub2 (snakeSub1 camel_str.data)))

/-- query_normalizer.py `_generate_variations`. -/
def generate_variations (term : String) : List String :=
  let v1 : List String :=
    if "figma.".data.isPrefixOf term.data then
      let clean := term.data.drop 6
      [String.mk clean] ++
        (if containsSub clean ['.'] then
          [String.mk ((splitOnSub clean ['.']).getLastD [])]
        else [])
    else []
  let v2 : List String :=
    if containsSub term.data ['_'] then [to_camel_case term] else []
  let v3 : List String :=
    if term.data.any isAsciiUpper then [to_snake_case term] else []
  v1 ++ v2 ++ v3

/-- The duplicate-removal loop at the end of `normalize_query`: keep the
first occurrence of each term, dropping terms equal to the canonical one. -/
def dedupExclSeen (excl : String) (seen : List String) : List String → List String
  | [] => []
  | x :: xs =>
    if x ∉ seen ∧ x ≠ excl then x :: dedupExclSeen excl (x :: seen) xs
    else dedupExclSeen excl seen xs

def dedupExcl (excl : String) (l : List String) : List String := dedupExclSeen excl [] l

/-- Sort key of `_find_partial_matches`: `abs(len(alias) - len(query))`. -/
def aliasKey (query_lower : String) (al : String) : Nat :=
  ((al.data.length : Int) - (query_lower.data.length : Int)).natAbs

def keyLeNat {α : Type} (f : α → Nat) (a b : α) : Prop := f a ≤ f b

instance {α : Type} (f : α → Nat) : DecidableRel (keyLeNat f) :=
  fun a b => inferInstanceAs (Decidable (f a ≤ f b))

instance {α : Type} (f : α → Nat) : IsTotal α (keyLeNat f) :=
  ⟨fun a b => Nat.le_total (f a) (f b)⟩

instance {α : Type} (f : α → Nat) : IsTrans α (keyLeNat f) :=
  ⟨fun _ _ _ h1 h2 => Nat.le_trans h1 h2⟩

/-- query_normalizer.py `_find_partial_matches`: alias keys that contain or
are contained in the query, sorted (stably) by closeness of length. -/
def find_alias_matches (aliases : List (String × String)) (query_lower : String) :
    List String :=
  let ms := (aliases.map (·.1)).filter
    (fun al => containsSub al.data query_lower.data ∨
                  containsSub query_lower.data al.data)
  List.insertionSort (keyLeNat (aliasKey query_lower)) ms

/-- query_normalizer.py `normalize_query`. -/
def normalize_query (aliases : List (String × String)) (query : String) :
    String × List String :=
  let original_query := pyStrip query
  let query_lower := pyLower original_query
  let step :=
    match (aliases.find? (fun (kv : String × String) => kv.1 = query_lower)).map (fun (kv : String × String) => kv.2) with
    | some canonical => (canonical, [original_query])
    | none =>
      match (find_alias_matches aliases query_lower).head? with
      | some best =>
        match (aliases.find? (fun (kv : String × String) => kv.1 = best)).map (fun (kv : String × String) => kv.2) with
        | some canon => (canon, [original_query, best])
        | none => (original_query, ([] : List String))
      | none => (original_query, ([] : List String))
  let normalized := step.1
  let additional := step.2 ++ generate_variations normalized
  (normalized, dedupExcl normalized additional)

/-! ### The corpus store -/

/-- A row of the `pages` table.  `sect` models the `section` column
(`section` is a Lean keyword). -/
structure Page where
  id : String
  title : String
  url : String
  sect : String
  source : String
  word_count : Nat
deriving DecidableEq, Repr

/-- A row of the `chunks` table. -/
structure Chunk where
  chunk_id : String
  page_id : String
  chunk_index : Nat
  chunk_of : Nat
  text : String
  n_tokens : Nat
deriving DecidableEq, Repr

/-- A row of the `embeddings` table; the vector models the float array
decoded by `np.frombuffer` (rows whose blob fails to decode are skipped by
the code and are simply absent from the model). -/
structure EmbeddingRow where
  chunk_id : String
  model : String
  vector : List ℚ
deriving DecidableEq, Repr

structure DB where
  pages : List Page
  chunks : List Chunk
  embeddings : List EmbeddingRow
deriving Repr

/-- `FROM chunks c JOIN pages p ON p.id = c.page_id` (chunk-major order;
SQLite's unspecified row order is modelled as stored order). -/
def joinRows (db : DB) : List (Chunk × Page) :=
  db.chunks.flatMap fun c =>
    (db.pages.filter (fun p => p.id = c.page_id)).map (fun p => (c, p))

/-- `CASE WHEN c.text LIKE '%figma.%' THEN 1 ELSE 2 END`. -/
def figmaOrd (r : Chunk × Page) : Nat := if sqlLike r.1.text "figma." then 1 else 2

def lexNatLe {α : Type} (f g : α → Nat) (a b : α) : Prop :=
  f a < f b ∨ (f a = f b ∧ g a ≤ g b)

instance {α : Type} (f g : α → Nat) : DecidableRel (lexNatLe f g) := fun a b =>
  inferInstanceAs (Decidable (f a < f b ∨ (f a = f b ∧ g a ≤ g b)))

instance {α : Type} (f g : α → Nat) : IsTotal α (lexNatLe f g) := by
  constructor
  intro a b
  unfold lexNatLe
  rcases Nat.lt_trichotomy (f a) (f b) with h | h | h
  · exact Or.inl (Or.inl h)
  · rcases Nat.le_total (g a) (g b) with h2 | h2
    · exact Or.inl (Or.inr ⟨h, h2⟩)
    · exact Or.inr (Or.inr ⟨h.symm, h2⟩)
  · exact Or.inr (Or.inl h)

instance {α : Type} (f g : α → Nat) : IsTrans α (lexNatLe f g) := by
  constructor
  intro a b c h1 h2
  unfold lexNatLe at *
  rcases h1 with h1 | ⟨h1e, h1g⟩ <;> rcases h2 with h2 | ⟨h2e, h2g⟩
  · exact Or.inl (Nat.lt_trans h1 h2)
  · exact Or.inl (h2e ▸ h1)
  · exact Or.inl (h1e ▸ h2)
  · exact Or.inr ⟨h1e.trans h2e, Nat.le_trans h1g h2g⟩

/-- `ORDER BY CASE … figma. …, LENGTH(c.text) ASC` (a stable sort in the
model; no settled claim depends on SQLite's tie order). -/
def sortRows (rows : List (Chunk × Page)) : List (Chunk × Page) :=
  List.insertionSort (lexNatLe figmaOrd (fun r => r.1.text.data.length)) rows

/-- Descending sort key on a rational-valued field (Python
`sort(key=…, reverse=True)`; stable). -/
def keyGeQ {α : Type} (f : α → ℚ) (a b : α) : Prop := f b ≤ f a

instance {α : Type} (f : α → ℚ) : DecidableRel (keyGeQ f) :=
  fun a b => inferInstanceAs (Decidable (f b ≤ f a))

instance {α : Type} (f : α → ℚ) : IsTotal α (keyGeQ f) :=
  ⟨fun a b => (le_total (f b) (f a)).imp id id⟩

instance {α : Type} (f : α → ℚ) : IsTrans α (keyGeQ f) :=
  ⟨fun _ _ _ h1 h2 => le_trans h2 h1⟩

/-! ### cross_linker.py -/

/-- One entry of a "community examples" cross-link bundle. -/
structure UsageExample where
  chunk_id : String
  url : String
  title : String
  snippet : String
  confidence : ℚ
deriving DecidableEq, Repr

/-- One entry of an "official documentation" cross-link bundle. -/
structure OfficialDoc where
  page_id : String
  title : String
  url : String
  snippet : String
deriving DecidableEq, Repr

/-- A cross-link bundle (the fixed `type`/`title` strings
`community_examples` / `official_documentation` are carried by the
constructor). -/
inductive CrossLinks where
  | community (examples : List UsageExample)
  | official (docs : List OfficialDoc)
deriving DecidableEq, Repr

/-- The CrossLinker's in-memory caches: `_api_symbol_cache` keyed by (the
model of) `hash(content[:500])`, `_community_usage_cache` keyed by
`f"{api_symbol}_{limit}"`. -/
structure CLState where
  sym_cache : List (String × List String)
  usage_cache : List (String × List UsageExample)
deriving Repr

def emptyCLState : CLState := ⟨[], []⟩

/-- The five IGNORECASE symbol patterns of
`extract_api_symbols_from_content`, scanned in order. -/
def crossPatternMatches (content : List Char) : List (List Char) :=
  scanAll stepFigB none content ++
  scanAll (stepSuffixWord "node".data) none content ++
  scanAll (stepSuffixWord "event".data) none content ++
  scanAll (stepLitDotAlpha "clientstorage".data) none content ++
  scanAll (stepLitDotAlpha "ui".data) none content

/-- The meaningful-marker filter of `extract_api_symbols_from_content`. -/
def symbolMeaningful (s : String) : Bool :=
  let n := pyLower s
  containsSub n.data "figma.".data ∨
    (["node", "event", "storage", "ui."].any (fun sfx => containsSub n.data sfx.data))

/-- cross_linker.py `extract_api_symbols_from_content` (stateful through
the symbol cache; an empty content short-circuits before the cache). -/
def extract_api_symbols_from_content (st : CLState) (content : String) :
    List String × CLState :=
  if content = "" then ([], st)
  else
    let key := String.mk (content.data.take 500)
    match st.sym_cache.find? (fun (kv : String × List String) => kv.1 = key) with
    | some kv => (kv.2, st)
    | none =>
      let symbols := dedupKeepFirst ((crossPatternMatches content.data).map String.mk)
      let normalized := symbols.filter symbolMeaningful
      (normalized, { st with sym_cache := (key, normalized) :: st.sym_cache })

/-- The duplicate-filter inside `_create_search_variants` (keeps first
occurrences of variants longer than 2 characters). -/
def dedupMinLenSeen (seen : List String) : List String → List String
  | [] => []
  | x :: xs =>
    if x ∉ seen ∧ x.data.length > 2 then x :: dedupMinLenSeen (x :: seen) xs
    else dedupMinLenSeen seen xs

def dedupMinLen (l : List String) : List String := dedupMinLenSeen [] l

/-- cross_linker.py `_create_search_variants`. -/
def create_search_variants (api_symbol : String) : List String :=
  let base : List String :=
    [api_symbol] ++
      (if "figma.".data.isPrefixOf api_symbol.data then
        let clean := api_symbol.data.drop 6
        [String.mk clean] ++
          (if containsSub clean ['.'] then
            [String.mk ((splitOnSub clean ['.']).getLastD [])]
          else [])
      else [])
  dedupMinLen (base ++ base.map pyLower)

/-- cross_linker.py `_extract_relevant_snippet` (default budget 150). -/
def extract_relevant_snippet (text : String) (api_symbol : String)
    (max_length : Nat := 150) : String :=
  if text = "" then ""
  else if api_symbol = "" then String.mk (text.data.take max_length)
  else
    let lines := splitOnSub text.data ['\n']
    match lines.findIdx? (fun line => containsSub (lowerList line) (lowerList api_symbol.data)) with
    | some idx =>
      let start := idx - 1
      let stop := min lines.length (idx + 2)
      let ctx := stripList (joinWith ['\n'] ((lines.drop start).take (stop - start)))
      if ctx.length ≤ max_length then String.mk ctx
      else String.mk (ctx.take max_length ++ "...".data)
    | none =>
      String.mk (text.data.take max_length ++
        (if text.data.length > max_length then "...".data else []))

def usageIndicators : List String :=
  ["const", "let", "var", "=", "await", "async", "function"]

def codeMarkers : List String := ["```", "const ", "let ", "function"]

/-- cross_linker.py `_calculate_usage_confidence`.  Every contribution is
a multiple of 0.1, so the score is computed exactly in tenths (an integer)
and returned as the rational `tenths / 10`; Python's float roundoff on
these sums is below every comparison made with them. -/
def calculate_usage_confidence (text : String) (api_symbol : String) : ℚ :=
  if text = "" ∨ api_symbol = "" then 0
  else
    let tl := lowerList text.data
    let c1 : ℤ := if containsSub tl (lowerList api_symbol.data) then 5 else 0
    let c2 : ℤ := usageIndicators.foldl
      (fun a w => if containsSub tl w.data then a + 1 else a) c1
    let c3 : ℤ :=
      if codeMarkers.any (fun m => containsSub text.data m.data) then c2 + 2 else c2
    let c4 : ℤ :=
      if text.data.length < 50 then c3 - 2
      else if text.data.length > 2000 then c3 - 1
      else c3
    mkRat (min 10 (max 0 c4)) 10

/-- The community-corpus LIKE query shared by the cross-linker and the
search engine (`p.section = 'community_plugin' AND c.text LIKE …`,
figma-first/shortest-first order, `LIMIT lim`). -/
def communityQuery (db : DB) (variant : String) (lim : Nat) : List (Chunk × Page) :=
  (sortRows ((joinRows db).filter
    (fun r => r.2.sect = "community_plugin" ∧ sqlLike r.1.text variant))).take lim

/-- The official-corpus LIKE query of the search engine
(`p.source = 'official' AND p.section = 'plugin' AND c.text LIKE …`). -/
def officialQuery (db : DB) (variant : String) (lim : Nat) : List (Chunk × Page) :=
  (sortRows ((joinRows db).filter
    (fun r => r.2.source = "official" ∧ r.2.sect = "plugin" ∧ sqlLike r.1.text variant))).take lim

/-- The variant loop of `find_community_usage` / `api_symbol_search`:
variants are tried in order and the first one yielding rows wins. -/
def firstVariantRows (q : String → List (Chunk × Page)) : List String → List (Chunk × Page)
  | [] => []
  | v :: vs =>
    match q v with
    | [] => firstVariantRows q vs
    | r :: rs => r :: rs

/-- cross_linker.py `find_community_usage` (stateful through the usage
cache; the `except` branch returning `[]` is unreachable in the pure
model). -/
def find_community_usage (db : DB) (st : CLState) (api_symbol : String)
    (lim : Nat := 3) : List UsageExample × CLState :=
  let cache_key := api_symbol ++ "_" ++ toString lim
  match st.usage_cache.find? (fun (kv : String × List UsageExample) => kv.1 = cache_key) with
  | some kv => (kv.2, st)
  | none =>
    let rows := firstVariantRows (fun v => communityQuery db v lim)
      (create_search_variants api_symbol)
    let examples := rows.map fun r =>
      { chunk_id := r.1.chunk_id
        url := r.2.url
        title := if r.2.title = "" then "Community Example" else r.2.title
        snippet := extract_relevant_snippet r.1.text api_symbol
        confidence := calculate_usage_confidence r.1.text api_symbol : UsageExample }
    let result := (List.insertionSort (keyGeQ UsageExample.confidence) examples).take lim
    (result, { st with usage_cache := (cache_key, result) :: st.usage_cache })

/-- cross_linker.py `find_official_documentation`: pages-major join, title
match preferred, then `figma.`-prefixed text match, `LIMIT 1`. -/
def find_official_documentation (db : DB) (api_symbol : String) : Option OfficialDoc :=
  (create_search_variants api_symbol).findSome? fun v =>
    let rows := (db.pages.flatMap fun p =>
        (db.chunks.filter (fun c => c.page_id = p.id)).map (fun c => (p, c))).filter
      (fun (r : Page × Chunk) =>
        r.1.source = "official" ∧ (sqlLike r.1.title v ∨ sqlLike r.2.text v))
    let sorted := List.insertionSort
      (lexNatLe (fun (r : Page × Chunk) => if sqlLike r.1.title v then 1 else 2)
                (fun (r : Page × Chunk) => if sqlLike r.2.text ("figma." ++ v) then 1 else 2))
      rows
    (sorted.head?).map fun r =>
      { page_id := r.1.id
        title := r.1.title
        url := r.1.url
        snippet := extract_relevant_snippet r.2.text api_symbol : OfficialDoc }

/-! ### Search-result candidates and `add_cross_links` -/

/-- A search-result candidate: the Python result dict of the search engine.
Keys that are present only on some paths are `Option`s (or booleans read
with `result.get(key, False)`). -/
structure Cand where
  chunk_id : String
  page_id : String
  score : ℚ
  text : String
  url : String
  sect : String
  title : String
  api_match : Bool := false
  matched_symbol : Option String := none
  is_fallback : Bool := false
  source_type : Option String := none
  search_method : Option String := none
  cross_links : Option CrossLinks := none
  preview : Option String := none
  expand_available : Bool := false
  expand_hint : Option String := none
deriving DecidableEq, Repr

/-- State-threading map (models a Python loop mutating dicts in a list
while updating instance caches). -/
def stmap {σ α : Type} (f : σ → α → α × σ) : σ → List α → List α × σ
  | s, [] => ([], s)
  | s, x :: xs =>
    let y := f s x
    let rest := stmap f y.2 xs
    (y.1 :: rest.1, rest.2)

/-- Classification of a result as official in `add_cross_links`. -/
def officialClass (r : Cand) : Bool :=
  r.sect = "plugin" ∨ r.source_type = some "official_docs"

/-- Classification of a result as community in `add_cross_links`
(the `elif` branch). -/
def communityClass (r : Cand) : Bool :=
  ¬ officialClass r ∧ r.sect = "community_plugin"

/-- The `unique_examples` dict of `add_cross_links`: keyed by chunk id,
first-seen key order, keeping the higher confidence. -/
def updateMaxConf (acc : List UsageExample) (e : UsageExample) : List UsageExample :=
  if acc.any (fun a => a.chunk_id = e.chunk_id) then
    acc.map (fun a => if a.chunk_id = e.chunk_id ∧ a.confidence < e.confidence then e else a)
  else acc ++ [e]

def dedupMaxConf (exs : List UsageExample) : List UsageExample :=
  exs.foldl updateMaxConf []

/-- The `unique_docs` dict of `add_cross_links`: first per page id wins. -/
def dedupDocsSeen (seen : List String) : List OfficialDoc → List OfficialDoc
  | [] => []
  | d :: ds =>
    if d.page_id ∈ seen then dedupDocsSeen seen ds
    else d :: dedupDocsSeen (d.page_id :: seen) ds

def dedupByPageId (l : List OfficialDoc) : List OfficialDoc := dedupDocsSeen [] l

/-- First pass of `add_cross_links`: symbols of every result are extracted
(populating the symbol cache); the collected union is otherwise unused. -/
def clSymbolPass (st : CLState) (results : List Cand) : CLState :=
  results.foldl (fun s r => (extract_api_symbols_from_content s r.text).2) st

/-- Second pass of `add_cross_links`: official results get a community
examples bundle (merged over symbols, deduped by chunk keeping the higher
confidence, top 2 by confidence). -/
def clOfficialEnrich (db : DB) (s : CLState) (r : Cand) : Cand × CLState :=
  if officialClass r then
    let es := extract_api_symbols_from_content s r.text
    let acc := es.1.foldl
      (fun (p : List UsageExample × CLState) sym =>
        let fc := find_community_usage db p.2 sym 2
        (p.1 ++ fc.1, fc.2))
      (([] : List UsageExample), es.2)
    if acc.1.isEmpty then (r, acc.2)
    else
      let sortedEx :=
        (List.insertionSort (keyGeQ UsageExample.confidence) (dedupMaxConf acc.1)).take 2
      ({ r with cross_links := some (CrossLinks.community sortedEx) }, acc.2)
  else (r, s)

/-- Third pass of `add_cross_links`: community results get an official
documentation bundle (first doc per symbol, deduped by page, up to 2). -/
def clCommunityEnrich (db : DB) (s : CLState) (r : Cand) : Cand × CLState :=
  if communityClass r then
    let es := extract_api_symbols_from_content s r.text
    let docs := es.1.filterMap (find_official_documentation db)
    if docs.isEmpty then (r, es.2)
    else ({ r with cross_links := some (CrossLinks.official ((dedupByPageId docs).take 2)) },
          es.2)
  else (r, s)

/-- cross_linker.py `add_cross_links` (the `query` argument is unused by
the Python code as well). -/
def add_cross_links (db : DB) (st : CLState) (results : List Cand) (_query : String) :
    List Cand × CLState :=
  if results.isEmpty then (results, st)
  else
    let st1 := clSymbolPass st results
    let p2 := stmap (clOfficialEnrich db) st1 results
    stmap (clCommunityEnrich db) p2.2 p2.1

/-! ### search_engine.py

The engine's two external capabilities are explicit parameters:
`emb : String → String → Option (List ℚ)` models `get_embedding` (a `none`
models a missing OpenAI client or a failed call, both of which the code
turns into `None`), and `cos : List ℚ → List ℚ → ℚ` models the
floating-point `cosine_similarity` (claims hold for every value it can
take).  `rand` models `ORDER BY RANDOM()` as a list reordering. -/

/-- The scope filter of `semantic_search`. -/
def semFilter (sectionArg : String) (p : Page) : Bool :=
  if sectionArg = "official" then p.source = "official" ∧ p.sect = "plugin"
  else if sectionArg = "community_plugin" then p.sect = "community_plugin"
  else p.sect = sectionArg ∨ p.source = sectionArg

/-- The chunk–page–embedding join of `semantic_search` (`LIMIT 100`). -/
def semRows (db : DB) (sectionArg model : String) : List (Chunk × Page × EmbeddingRow) :=
  ((db.chunks.flatMap fun c =>
    (db.pages.filter (fun p => p.id = c.page_id)).flatMap fun p =>
      (db.embeddings.filter (fun e => e.chunk_id = c.chunk_id ∧ e.model = model)).map
        fun e => (c, p, e)).filter
    (fun (r : Chunk × Page × EmbeddingRow) => semFilter sectionArg r.2.1)).take 100

/-- search_engine.py `semantic_search`. -/
def semantic_search (cos : List ℚ → List ℚ → ℚ) (emb : String → String → Option (List ℚ))
    (db : DB) (query sectionArg : String) (top_k : Nat) (model : String) : List Cand :=
  match emb query model with
  | none => []
  | some qe =>
    let cands := (semRows db sectionArg model).map fun r =>
      { chunk_id := r.1.chunk_id, page_id := r.1.page_id, score := cos qe r.2.2.vector,
        text := r.1.text, url := r.2.1.url, sect := r.2.1.sect, title := r.2.1.title : Cand }
    (List.insertionSort (keyGeQ Cand.score) cands).take top_k

/-- The section dispatch of `keyword_search`'s SQL. -/
def keywordRows (db : DB) (query sectionArg : String) (top_k : Nat) : List (Chunk × Page) :=
  if sectionArg = "official" then officialQuery db query top_k
  else if sectionArg = "community_plugin" then communityQuery db query top_k
  else (sortRows ((joinRows db).filter
    (fun r => (r.2.sect = sectionArg ∨ r.2.source = sectionArg) ∧
              sqlLike r.1.text query))).take top_k

/-- The per-row score of `keyword_search`:
`min(text_lower.count(q_lower) / len(text_lower.split()), 1.0)` —
a `ZeroDivisionError` when the text has no words. -/
def keywordScore (query text : String) : Except String ℚ :=
  let tl := lowerList text.data
  let words := (splitWs tl).length
  if words = 0 then .error "ZeroDivisionError"
  else .ok (min (mkRat (countOccur tl (lowerList query.data)) words) 1)

def keywordCands (query : String) : List (Chunk × Page) → Except String (List Cand)
  | [] => .ok []
  | r :: rs => do
    let sc ← keywordScore query r.1.text
    let rest ← keywordCands query rs
    .ok ({ chunk_id := r.1.chunk_id, page_id := r.1.page_id, score := sc, text := r.1.text,
           url := r.2.url, sect := r.2.sect, title := r.2.title : Cand } :: rest)

/-- search_engine.py `keyword_search`. -/
def keyword_search (db : DB) (query sectionArg : String) (top_k : Nat) :
    Except String (List Cand) :=
  keywordCands query (keywordRows db query sectionArg top_k)

/-- The `search_terms` list of `api_symbol_search` (`list(set(...))`,
first-seen order in the model). -/
def apiSearchTerms (symbol : String) : List String :=
  let terms : List String :=
    [symbol] ++
      (if "figma.".data.isPrefixOf symbol.data then
        let clean := symbol.data.drop 6
        [String.mk clean] ++
          (if containsSub clean ['.'] then
            [String.mk ((splitOnSub clean ['.']).getLastD [])]
          else [])
      else [])
  dedupKeepFirst (terms ++ terms.map pyLower)

/-- search_engine.py `api_symbol_search` (only ever called with sections
`official` / `community_plugin`; any other section executes no query). -/
def api_symbol_search (db : DB) (symbol sectionArg : String) (top_k : Nat) : List Cand :=
  let q := fun v =>
    if sectionArg = "official" then officialQuery db v top_k
    else if sectionArg = "community_plugin" then communityQuery db v top_k
    else []
  (firstVariantRows q (apiSearchTerms symbol)).map fun r =>
    { chunk_id := r.1.chunk_id, page_id := r.1.page_id, score := mkRat 4 5, text := r.1.text,
      url := r.2.url, sect := r.2.sect, title := r.2.title, api_match := true : Cand }

/-- search_engine.py `fuzzy_fallback_search`: a `RANDOM()`-ordered sample
of chunks mentioning `figma.`, scored 0.1 and marked as fallback. -/
def fuzzy_fallback_search (rand : List (Chunk × Page) → List (Chunk × Page))
    (db : DB) (_query : String) (top_k : Nat) : List Cand :=
  ((rand ((joinRows db).filter (fun r => sqlLike r.1.text "figma."))).take top_k).map fun r =>
    { chunk_id := r.1.chunk_id, page_id := r.1.page_id, score := mkRat 1 10, text := r.1.text,
      url := r.2.url, sect := r.2.sect, title := r.2.title, is_fallback := true : Cand }

def tagSemantic (stype : String) (c : Cand) : Cand :=
  { c with source_type := some stype, search_method := some "semantic" }

def tagApi (stype sym : String) (c : Cand) : Cand :=
  { c with source_type := some stype, search_method := some "api_symbol",
           matched_symbol := some sym }

def tagKeyword (c : Cand) : Cand := { c with search_method := some "keyword" }

def tagFuzzy (c : Cand) : Cand := { c with search_method := some "fuzzy_fallback" }

/-- Step 3 of `unified_search`: api-symbol search over the first two
detected symbols, both corpora, limit 2 each. -/
def apiStage (db : DB) (symbols : List String) : List Cand × List String :=
  (symbols.take 2).foldl
    (fun acc sym =>
      let offs := (api_symbol_search db sym "official" 2).map (tagApi "api_reference" sym)
      let coms := (api_symbol_search db sym "community_plugin" 2).map
        (tagApi "community_code" sym)
      (acc.1 ++ offs ++ coms,
       acc.2 ++
        (if offs.isEmpty ∧ coms.isEmpty then []
         else ["api_symbol_" ++ sym ++ "(" ++ toString (offs.length + coms.length) ++ ")"])))
    (([] : List Cand), ([] : List String))

/-- Step 4 of `unified_search`: keyword fallback (official first in auto
mode, community retry when that is empty). -/
def keywordStage (db : DB) (query sectionArg : String) (top_k : Nat) :
    Except String (List Cand) :=
  match keyword_search db query (if sectionArg ≠ "auto" then sectionArg else "official") top_k with
  | .error e => .error e
  | .ok kw =>
    if kw.isEmpty ∧ sectionArg = "auto" then keyword_search db query "community_plugin" top_k
    else .ok kw

/-- Steps 1–5 of `unified_search`: the candidate-gathering cascade,
returning `all_results` and the strategy trace.  An exception in the
keyword stage propagates (the Python code has no handler around it). -/
def gatherCandidates (cos : List ℚ → List ℚ → ℚ) (emb : String → String → Option (List ℚ))
    (rand : List (Chunk × Page) → List (Chunk × Page)) (db : DB)
    (query sectionArg : String) (top_k : Nat) (model : String) :
    Except String (List Cand × List String) :=
  let api_symbols := extract_api_symbols_from_query query
  let s1 := if sectionArg = "auto" ∨ sectionArg = "official" then
      (semantic_search cos emb db query "official" top_k model).map (tagSemantic "official_docs")
    else []
  let strat1 : List String :=
    if s1.isEmpty then [] else ["semantic_official(" ++ toString s1.length ++ ")"]
  let s2 := if s1.length < 3 ∧ (sectionArg = "auto" ∨ sectionArg = "community_plugin") then
      (semantic_search cos emb db query "community_plugin" (max 3 (top_k - s1.length))
        model).map (tagSemantic "community_code")
    else []
  let strat2 := strat1 ++
    (if s2.isEmpty then [] else ["semantic_community(" ++ toString s2.length ++ ")"])
  let ap := apiStage db api_symbols
  let all3 := s1 ++ s2 ++ ap.1
  let strat3 := strat2 ++ ap.2
  if all3.length = 0 then
    match keywordStage db query sectionArg top_k with
    | .error e => .error e
    | .ok kw =>
      let kwTagged := kw.map tagKeyword
      let all4 := all3 ++ kwTagged
      let strat4 := strat3 ++ ["keyword(" ++ toString kwTagged.length ++ ")"]
      if all4.length = 0 then
        let fz := (fuzzy_fallback_search rand db query top_k).map tagFuzzy
        .ok (all4 ++ fz, strat4 ++ ["fuzzy_fallback(" ++ toString fz.length ++ ")"])
      else .ok (all4, strat4)
  else .ok (all3, strat3)

/-- The deduplication loop of `unified_search` (`seen_chunks` set;
first occurrence wins). -/
def dedupeByChunkId (seen : List String) : List Cand → List Cand
  | [] => []
  | r :: rest =>
    if r.chunk_id ∈ seen then dedupeByChunkId seen rest
    else r :: dedupeByChunkId (r.chunk_id :: seen) rest

/-- The final ranking order of `unified_search`:
`sort(key=lambda x: (x['score'], x.get('api_match', False)), reverse=True)`
— descending lexicographically on (score, api-match flag). -/
def candSortGe (a b : Cand) : Prop :=
  b.score < a.score ∨ (b.score = a.score ∧ b.api_match ≤ a.api_match)

instance : DecidableRel candSortGe := fun a b =>
  inferInstanceAs (Decidable (b.score < a.score ∨ (b.score = a.score ∧ b.api_match ≤ a.api_match)))

instance : IsTotal Cand candSortGe := by
  constructor
  intro a b
  unfold candSortGe
  rcases lt_trichotomy a.score b.score with h | h | h
  · exact Or.inr (Or.inl h)
  · rcases le_total a.api_match b.api_match with h2 | h2
    · exact Or.inr (Or.inr ⟨h.symm ▸ rfl, h2⟩)
    · exact Or.inl (Or.inr ⟨h ▸ rfl, h2⟩)
  · exact Or.inl (Or.inl h)

instance : IsTrans Cand candSortGe := by
  constructor
  intro a b c h1 h2
  unfold candSortGe at *
  rcases h1 with h1 | ⟨h1e, h1g⟩ <;> rcases h2 with h2 | ⟨h2e, h2g⟩
  · exact Or.inl (lt_trans h2 h1)
  · exact Or.inl (h2e ▸ h1)
  · exact Or.inl (h1e ▸ h2)
  · exact Or.inr ⟨h2e.trans h1e, le_trans h2g h1g⟩

/-- Step 7 of `unified_search`: preview, expand hints, and the
`source_type` defaulting chain. -/
def setPreviewFields (query : String) (r : Cand) : Cand :=
  let r1 := { r with preview := some (create_smart_preview r.text query 250),
                     expand_available := true,
                     expand_hint := some "💡 Use mcp_expand for full content" }
  if r1.source_type ≠ none then r1
  else if r1.sect = "plugin" then { r1 with source_type := some "official_docs" }
  else if r1.sect = "community_plugin" then { r1 with source_type := some "community_code" }
  else if r1.api_match then { r1 with source_type := some "api_reference" }
  else if pyContains r1.url "figma.com/plugin-docs" then
    { r1 with source_type := some "official_docs" }
  else if pyContains r1.url "github.com" then { r1 with source_type := some "community_code" }
  else { r1 with source_type := some "other" }

/-- The return value of `unified_search`. -/
structure SearchOut where
  query : String
  sect : String
  top_k : Nat
  results : List Cand
  search_strategy : List String
  total_found : Nat
  api_symbols_detected : List String
deriving Repr

/-- search_engine.py `unified_search`: gather, dedupe, sort, truncate,
cross-link, preview.  The cross-linker cache state is threaded explicitly
(`self.cross_linker` lives across calls). -/
def unified_search (cos : List ℚ → List ℚ → ℚ) (emb : String → String → Option (List ℚ))
    (rand : List (Chunk × Page) → List (Chunk × Page)) (clState : CLState) (db : DB)
    (query : String) (sectionArg : String := "auto") (top_k : Nat := 5)
    (model : String := "text-embedding-3-small") : Except String (SearchOut × CLState) :=
  match gatherCandidates cos emb rand db query sectionArg top_k model with
  | .error e => .error e
  | .ok (all, strat) =>
    let uniq := dedupeByChunkId [] all
    let sorted := List.insertionSort candSortGe uniq
    let final := sorted.take top_k
    let cl := add_cross_links db clState final query
    let finalResults := cl.1.map (setPreviewFields query)
    .ok ({ query := query, sect := sectionArg, top_k := top_k, results := finalResults,
           search_strategy := strat, total_found := all.length,
           api_symbols_detected := extract_api_symbols_from_query query }, cl.2)

/-! ### expand_engine.py -/

/-- Non-overlapping removal of every occurrence of `sub`
(Python `str.replace(sub, '')`). -/
def removeAllSubF : Nat → List Char → List Char → List Char
  | 0, hay, _ => hay
  | fuel + 1, hay, sub =>
    match hay with
    | [] => []
    | h :: t =>
      if sub = [] then h :: t
      else if sub.isPrefixOf (h :: t) then removeAllSubF fuel ((h :: t).drop sub.length) sub
      else h :: removeAllSubF fuel t sub

def removeAllSub (hay sub : List Char) : List Char := removeAllSubF (hay.length + 1) hay sub

def rbraceChar : Char := Char.ofNat 125

/-- `uuid.UUID(id_string)` acceptance (the shape test of `detect_id_type`):
`urn:`/`uuid:` removed, braces stripped, dashes removed, exactly 32 hex
digits.  (Exotic `int(…, 16)` spellings — signs, padding, underscores — are
not modelled; no settled claim depends on the type guess.) -/
def isUuidString (s : String) : Bool :=
  let h1 := removeAllSub s.data "urn:".data
  let h2 := removeAllSub h1 "uuid:".data
  let isBrace := fun c => c = lbraceChar ∨ c = rbraceChar
  let h3 := ((h2.dropWhile isBrace).reverse.dropWhile isBrace).reverse
  let h4 := h3.filter (fun c => c ≠ '-')
  h4.length = 32 ∧ h4.all isHexDigit

/-- expand_engine.py `detect_id_type`. -/
def detect_id_type (db : DB) (id_string : String) : String :=
  if db.pages.any (fun p => p.id = id_string) then "page"
  else if db.chunks.any (fun c => c.chunk_id = id_string) then "chunk"
  else if isUuidString id_string then "chunk"
  else "page"

/-- `chunk['text'][:100] + "..." if len(chunk['text']) > 100 else …`. -/
def chunkPreview (text : String) : String :=
  if text.data.length > 100 then String.mk (text.data.take 100 ++ "...".data) else text

structure ChunkInfo where
  chunk_id : String
  chunk_index : Nat
  tokens : Nat
  preview : String
deriving DecidableEq, Repr

structure PageNav where
  total_chunks : Nat
  chunk_range : String
deriving DecidableEq, Repr

/-- The dict returned by `expand_by_page_id`. -/
structure PageData where
  page_id : String
  title : String
  url : String
  sect : String
  source : String
  word_count : Nat
  total_chunks : Nat
  total_tokens : Nat
  content : String
  chunks_info : List ChunkInfo
  navigation : PageNav
deriving DecidableEq, Repr

structure CtxChunk where
  chunk_id : String
  chunk_index : Nat
  tokens : Nat
  is_target : Bool
  preview : String
deriving DecidableEq, Repr

structure ChunkNav where
  position : String
  context_range : String
  has_prev : Bool
  has_next : Bool
deriving DecidableEq, Repr

/-- The dict returned by `expand_by_chunk_id`. -/
structure ChunkData where
  chunk_id : String
  page_id : String
  page_title : String
  page_url : String
  sect : String
  source : String
  target_chunk_index : Nat
  total_chunks_in_page : Nat
  context_start_index : Int
  context_end_index : Int
  target_position_in_context : Option Nat
  expanded_content : String
  word_count : Nat
  context_chunks : List CtxChunk
  navigation : ChunkNav
deriving DecidableEq, Repr

/-- The dict returned by the substring-match fallback of
`universal_expand` (Python type tag `"partial_match"`). -/
structure PmatchData where
  chunk_id : String
  content : String
  page_title : String
  page_url : String
  warning : String
deriving DecidableEq, Repr

inductive ExpandData where
  | page (d : PageData)
  | chunk (d : ChunkData)
  | pmatch (d : PmatchData)
deriving DecidableEq, Repr

/-- The dict returned by `universal_expand` (keys present only on some
paths are `Option`s; `attempted_methods` is empty except on the failure
path). -/
structure ExpandResult where
  success : Bool
  data : Option ExpandData := none
  method_used : Option String := none
  auto_detected : Option Bool := none
  fallback_used : Option Bool := none
  original_type_attempted : Option String := none
  error : Option String := none
  attempted_methods : List String := []
  suggestion : Option String := none
  id : Option String := none
deriving DecidableEq, Repr

/-- expand_engine.py `expand_by_page_id`. -/
def expand_by_page_id (db : DB) (page_id : String) : Option PageData :=
  match db.pages.find? (fun p => p.id = page_id) with
  | none => none
  | some p =>
    let chunks := List.insertionSort (keyLeNat Chunk.chunk_index)
      (db.chunks.filter (fun c => c.page_id = page_id))
    if chunks.isEmpty then none
    else
      let full_text := String.mk (joinWith "\n\n".data (chunks.map (fun c => c.text.data)))
      some
        { page_id := page_id, title := p.title, url := p.url, sect := p.sect,
          source := p.source, word_count := wordCount full_text,
          total_chunks := chunks.length, total_tokens := (chunks.map Chunk.n_tokens).sum,
          content := full_text,
          chunks_info := chunks.map fun c =>
            { chunk_id := c.chunk_id, chunk_index := c.chunk_index, tokens := c.n_tokens,
              preview := chunkPreview c.text },
          navigation :=
            { total_chunks := chunks.length,
              chunk_range := "0-" ++ toString (chunks.length - 1) } }

/-- expand_engine.py `expand_by_chunk_id`. -/
def expand_by_chunk_id (db : DB) (chunk_id : String) (context_window : Nat := 2) :
    Option ChunkData :=
  match (joinRows db).find? (fun r => r.1.chunk_id = chunk_id) with
  | none => none
  | some r =>
    let c := r.1
    let p := r.2
    let start : Int := max 0 ((c.chunk_index : Int) - context_window)
    let stop : Int := min ((c.chunk_of : Int) - 1) ((c.chunk_index : Int) + context_window)
    let ctx := List.insertionSort (keyLeNat Chunk.chunk_index)
      (db.chunks.filter (fun ch => ch.page_id = c.page_id ∧
        start ≤ (ch.chunk_index : Int) ∧ (ch.chunk_index : Int) ≤ stop))
    if hCtx : ctx.isEmpty then none
    else
      let context_text := String.mk (joinWith "\n\n".data (ctx.map (fun ch => ch.text.data)))
      some
        { chunk_id := chunk_id, page_id := c.page_id, page_title := p.title,
          page_url := p.url, sect := p.sect, source := p.source,
          target_chunk_index := c.chunk_index, total_chunks_in_page := c.chunk_of,
          context_start_index := start, context_end_index := stop,
          target_position_in_context := ctx.findIdx? (fun ch => ch.chunk_id = chunk_id),
          expanded_content := context_text, word_count := wordCount context_text,
          context_chunks := ctx.map fun ch =>
            { chunk_id := ch.chunk_id, chunk_index := ch.chunk_index, tokens := ch.n_tokens,
              is_target := ch.chunk_id = chunk_id, preview := chunkPreview ch.text },
          navigation :=
            { position := "chunk " ++ toString (c.chunk_index + 1) ++ " of " ++
                toString c.chunk_of,
              context_range := "chunks " ++ toString start ++ " - " ++ toString stop,
              has_prev := c.chunk_index > 0,
              has_next := (c.chunk_index : Int) < (c.chunk_of : Int) - 1 } }

/-- The type-resolution step of `universal_expand` (auto-detection). -/
def resolve_expand_type (db : DB) (id_string expand_type : String) : String :=
  if expand_type = "auto" then detect_id_type db id_string else expand_type

/-- `fallback_type = 'chunk' if expand_type == 'page' else 'page'`. -/
def fallback_type_of (t : String) : String := if t = "page" then "chunk" else "page"

/-- expand_engine.py `universal_expand` (every store access is total in
the model, so the `try/except` fallbacks fire exactly on "no row found"). -/
def universal_expand (db : DB) (id_string : String) (expand_type : String := "auto")
    (context_window : Nat := 2) : ExpandResult :=
  let original_type := expand_type
  let resolved := resolve_expand_type db id_string expand_type
  let firstTry : Option ExpandResult :=
    if resolved = "page" then
      (expand_by_page_id db id_string).map fun r =>
        { success := true, data := some (.page r), method_used := some "page_expansion",
          auto_detected := some (original_type = "auto") }
    else if resolved = "chunk" then
      (expand_by_chunk_id db id_string context_window).map fun r =>
        { success := true, data := some (.chunk r), method_used := some "chunk_expansion",
          auto_detected := some (original_type = "auto") }
    else none
  match firstTry with
  | some r => r
  | none =>
    let fallback_type := fallback_type_of resolved
    let secondTry : Option ExpandResult :=
      if fallback_type = "page" then
        (expand_by_page_id db id_string).map fun r =>
          { success := true, data := some (.page r), method_used := some "page_expansion",
            fallback_used := some true, original_type_attempted := some resolved,
            auto_detected := some (original_type = "auto") }
      else
        (expand_by_chunk_id db id_string context_window).map fun r =>
          { success := true, data := some (.chunk r), method_used := some "chunk_expansion",
            fallback_used := some true, original_type_attempted := some resolved,
            auto_detected := some (original_type = "auto") }
    match secondTry with
    | some r => r
    | none =>
      match ((joinRows db).filter
          (fun r => sqlLike r.1.chunk_id (String.mk (id_string.data.take 8)))).head? with
      | some r =>
        { success := true,
          data := some (.pmatch
            { chunk_id := r.1.chunk_id, content := r.1.text, page_title := r.2.title,
              page_url := r.2.url,
              warning := "Exact ID not found. Showing partial match for " ++ id_string }),
          method_used := some "partial_match_fallback", fallback_used := some true }
      | none =>
        { success := false,
          error := some ("Could not expand ID: " ++ id_string),
          attempted_methods := [resolved, fallback_type, "partial_match"],
          suggestion := some "Check if the ID is correct or try searching for the content instead",
          id := some id_string,
          auto_detected := some (original_type = "auto") }

/-! ### Auxiliary definitions for the statements and proofs -/

/-- Accumulated line lengths plus separators, the quantity tracked by the
`current_length` counter of `format_code_preview`. -/
def sumLen1 (ls : List (List Char)) : Nat := (ls.map (fun l => l.length + 1)).sum

/-- The identity-relevant projection of a search result: every field the
deduplication, ranking, and first-occurrence statements talk about, and
which the cross-link / preview enrichment passes never change. -/
def candCore (r : Cand) : String × String × ℚ × String × Bool :=
  (r.chunk_id, r.page_id, r.score, r.text, r.api_match)

/-- `a` occurs in `l` and no earlier element of `l` carries its chunk id:
`a` is the first occurrence of its chunk id, in cascade order. -/
def isFirstOccIn (l : List Cand) (a : Cand) : Prop :=
  ∃ t1 t2, l = t1 ++ a :: t2 ∧ ∀ b ∈ t1, b.chunk_id ≠ a.chunk_id

/-- Concrete store for the C2 counterexample and the C2 witness: one
official page with one chunk. -/
def dbC2 : DB :=
  { pages := [{ id := "P1", title := "T", url := "u", sect := "plugin",
                source := "official", word_count := 1 }],
    chunks := [{ chunk_id := "abcdefgh123", page_id := "P1", chunk_index := 0,
                 chunk_of := 1, text := "x", n_tokens := 1 }],
    embeddings := [] }

/-- Concrete store for the C10 witness: one page that owns zero chunks. -/
def dbC10 : DB :=
  { pages := [{ id := "P1", title := "T", url := "u", sect := "plugin",
                source := "official", word_count := 0 }],
    chunks := [],
    embeddings := [] }

/-- Concrete store for the C4 witness: one page with three contiguous chunks. -/
def dbC4 : DB :=
  { pages := [{ id := "P1", title := "T", url := "u", sect := "plugin",
                source := "official", word_count := 3 }],
    chunks := [
      { chunk_id := "c0", page_id := "P1", chunk_index := 0, chunk_of := 3,
        text := "a", n_tokens := 1 },
      { chunk_id := "c1", page_id := "P1", chunk_index := 1, chunk_of := 3,
        text := "b", n_tokens := 1 },
      { chunk_id := "c2", page_id := "P1", chunk_index := 2, chunk_of := 3,
        text := "c", n_tokens := 1 }],
    embeddings := [] }

/-- Concrete store for C1/C3: an official plugin page owning a
whitespace-only chunk (zero words) and a `figma.`-mentioning chunk. -/
def dbC3 : DB :=
  { pages := [{ id := "P1", title := "T", url := "u", sect := "plugin",
                source := "official", word_count := 2 }],
    chunks := [
      { chunk_id := "k0", page_id := "P1", chunk_index := 0, chunk_of := 2,
        text := " ", n_tokens := 1 },
      { chunk_id := "k1", page_id := "P1", chunk_index := 1, chunk_of := 2,
        text := "figma.x", n_tokens := 1 }],
    embeddings := [] }

/-- The results list of a `unified_search` outcome (empty on an exception). -/
def resultsOf (e : Except String (SearchOut × CLState)) : List Cand :=
  match e with
  | .error _ => []
  | .ok (o, _) => o.results

/-- The `all_results` list gathered by the cascade (empty on an exception). -/
def gatheredOf (e : Except String (List Cand × List String)) : List Cand :=
  match e with
  | .error _ => []
  | .ok (p, _) => p

/-- Concrete store for the C1 witness: one official page with one
`figma.`-mentioning chunk. -/
def dbC1 : DB :=
  { pages := [{ id := "P1", title := "T", url := "u", sect := "plugin",
                source := "official", word_count := 1 }],
    chunks := [{ chunk_id := "k1", page_id := "P1", chunk_index := 0,
                 chunk_of := 1, text := "figma.x", n_tokens := 1 }],
    embeddings := [] }

/-! ## Theorems -/

/-! ### Length lemmas for the preview generator -/

theorem stripList_length_le (l : List Char) : (stripList l).length ≤ l.length := by
  unfold stripList
  calc ((l.dropWhile isPyWs).reverse.dropWhile isPyWs).reverse.length
      = ((l.dropWhile isPyWs).reverse.dropWhile isPyWs).length := List.length_reverse _
    _ ≤ (l.dropWhile isPyWs).reverse.length := (List.dropWhile_sublist _).length_le
    _ = (l.dropWhile isPyWs).length := List.length_reverse _
    _ ≤ l.length := (List.dropWhile_sublist _).length_le

theorem isPrefixOf_length_le {n h : List Char} (hp : n.isPrefixOf h = true) :
    n.length ≤ h.length :=
  (List.isPrefixOf_iff_prefix.mp hp).length_le

theorem rfindSub_le (hay needle : List Char) (h : 0 ≤ rfindSub hay needle) :
    (rfindSub hay needle).toNat + needle.length ≤ hay.length := by
  induction hay with
  | nil =>
    unfold rfindSub at h ⊢
    by_cases hn : needle.isEmpty
    · simp_all [List.isEmpty_iff]
    · simp [hn] at h
  | cons a t ih =>
    unfold rfindSub at h ⊢
    by_cases hr : 0 ≤ rfindSub t needle
    · simp only [if_pos hr] at h ⊢
      have := ih hr
      have htn : ((rfindSub t needle) + 1).toNat = (rfindSub t needle).toNat + 1 := by
        omega
      simp only [htn, List.length_cons]
      omega
    · simp only [if_neg hr] at h ⊢
      by_cases hp : needle.isPrefixOf (a :: t)
      · simp only [if_pos hp] at h ⊢
        have := isPrefixOf_length_le hp
        simpa using this
      · simp [hp] at h

theorem bestSentenceEnd_le (tr : List Char) (m : Nat) (htr : tr.length ≤ m) :
    bestSentenceEnd tr m ≤ (m : Int) := by
  unfold bestSentenceEnd
  have step : ∀ (cs : List Char) (acc : Int), acc ≤ (m : Int) →
      (cs.foldl
        (fun acc c =>
          let pos := rfindSub tr [c, ' ']
          if (5 * pos > 3 * (m : Int)) then max acc (pos + 1) else acc)
        acc) ≤ (m : Int) := by
    intro cs
    induction cs with
    | nil => intro acc hacc; simpa using hacc
    | cons c cs ih =>
      intro acc hacc
      simp only [List.foldl_cons]
      apply ih
      by_cases hcond : (5 * rfindSub tr [c, ' '] > 3 * (m : Int))
      · simp only [if_pos hcond]
        have hpos : (0 : Int) ≤ rfindSub tr [c, ' '] := by omega
        have hb := rfindSub_le tr [c, ' '] hpos
        simp only [List.length_cons, List.length_nil] at hb
        have : rfindSub tr [c, ' '] + 1 ≤ (m : Int) := by omega
        exact max_le hacc this
      · simpa [if_neg hcond] using hacc
  exact step _ _ (by omega)

theorem data_mk (l : List Char) : (String.mk l).data = l := rfl

theorem strLen (s : String) : s.length = s.data.length := rfl

theorem truncate_smart_length (t : String) (m : Nat) :
    (truncate_smart t m).data.length ≤ m + 1 := by
  unfold truncate_smart
  dsimp only
  split_ifs with h1 h2 h3
  · omega
  · have hbe : bestSentenceEnd (t.data.take m) m ≤ (m : Int) :=
      bestSentenceEnd_le _ _ (by simp)
    have h3 : (bestSentenceEnd (t.data.take m) m).toNat ≤ m := by omega
    simp only [data_mk]
    calc (stripList (t.data.take (bestSentenceEnd (t.data.take m) m).toNat)).length
        ≤ (t.data.take (bestSentenceEnd (t.data.take m) m).toNat).length :=
          stripList_length_le _
      _ ≤ (bestSentenceEnd (t.data.take m) m).toNat := by simp
      _ ≤ m + 1 := by omega
  · simp only [data_mk, List.length_append, List.length_cons, List.length_nil]
    have : (stripList ((t.data.take m).take
        (rfindSub (t.data.take m) [' ']).toNat)).length ≤ m := by
      calc (stripList ((t.data.take m).take (rfindSub (t.data.take m) [' ']).toNat)).length
          ≤ ((t.data.take m).take (rfindSub (t.data.take m) [' ']).toNat).length :=
            stripList_length_le _
        _ ≤ (t.data.take m).length := by simp
        _ ≤ m := by simp
    omega
  · simp only [data_mk, List.length_append, List.length_cons, List.length_nil]
    have : (stripList (t.data.take m)).length ≤ m := by
      calc (stripList (t.data.take m)).length ≤ (t.data.take m).length :=
          stripList_length_le _
        _ ≤ m := by simp
    omega

theorem joinWith_single_length (c : Char) :
    ∀ (ls : List (List Char)), ls ≠ [] → (joinWith [c] ls).length + 1 = sumLen1 ls := by
  intro ls
  induction ls with
  | nil => intro h; exact absurd rfl h
  | cons x rest ih =>
    intro _
    cases rest with
    | nil => simp [joinWith, sumLen1]
    | cons y t =>
      have hih := ih (by simp)
      simp only [joinWith, List.length_append, List.length_cons, List.length_nil,
        sumLen1, List.map_cons, List.sum_cons] at hih ⊢
      omega

theorem fcpLines_sum (m : Nat) :
    ∀ (ls : List (List Char)) (cur : Nat),
      5 * (sumLen1 (fcpLines m ls cur) + cur) ≤ max (4 * m) (5 * cur) := by
  intro ls
  induction ls with
  | nil =>
    intro cur
    simp only [fcpLines, sumLen1, List.map_nil, List.sum_nil]
    omega
  | cons l rest ih =>
    intro cur
    unfold fcpLines
    split_ifs with hc
    · simp only [sumLen1, List.map_nil, List.sum_nil]
      omega
    · push_neg at hc
      have hih := ih (cur + l.length + 1)
      have hgoal : sumLen1 (l :: fcpLines m rest (cur + l.length + 1)) =
          (l.length + 1) + sumLen1 (fcpLines m rest (cur + l.length + 1)) := by
        simp [sumLen1]
      rw [hgoal]
      omega

theorem format_code_preview_length (cb : String) (m : Nat) :
    (format_code_preview cb m).data.length ≤ m + 3 := by
  unfold format_code_preview
  dsimp only
  split_ifs with h1 h2
  · simp only [data_mk]; omega
  · simp only [data_mk, List.length_append]
    have : ((collapseBlankLines (stripList cb.data)).take m).length ≤ m := by simp
    simp only [List.length_cons, List.length_nil] at *
    omega
  · have hkept : fcpLines m (splitOnSub (collapseBlankLines (stripList cb.data)) ['\n']) 0 ≠ [] := by
      simpa [List.isEmpty_iff] using h2
    have hj := joinWith_single_length '\n' _ hkept
    have hs := fcpLines_sum m (splitOnSub (collapseBlankLines (stripList cb.data)) ['\n']) 0
    simp only [data_mk, List.length_append, List.length_cons, List.length_nil]
    omega

theorem firstPara_shape (qw : List String) (m : Nat) :
    ∀ (ps : List (List Char)) (r : String), firstPara qw m ps = some r →
      ∃ p, r = truncate_smart p m := by
  intro ps
  induction ps with
  | nil => intro r h; simp [firstPara] at h
  | cons para rest ih =>
    intro r h
    unfold firstPara at h
    dsimp only at h
    split_ifs at h with hlen hq hf
    · exact ih r h
    · exact ⟨_, (Option.some_inj.mp h).symm⟩
    · exact ⟨_, (Option.some_inj.mp h).symm⟩
    · exact ih r h

/-- C7, amended: for every text, query, and budget, `create_smart_preview`
returns at most `max_length + 3` characters.  (The code-block branch may
append a three-character `...` marker to a `max_length`-character prefix;
every other branch stays within `max_length` plus one ellipsis
character.) -/
theorem c7_preview_length_le (text₀ query : String) (max_length : Nat) :
    (create_smart_preview text₀ query max_length).length ≤ max_length + 3 := by
  unfold create_smart_preview
  dsimp only
  rw [strLen]
  split_ifs with h1
  · simp only [data_mk] at h1 ⊢
    omega
  · split
    next cb heq => exact (format_code_preview_length _ _).trans (by omega)
    next heq =>
      split
      next s heq2 => exact (truncate_smart_length _ _).trans (by omega)
      next heq2 =>
        split
        next r heq3 =>
          obtain ⟨p, hp⟩ := firstPara_shape _ _ _ _ heq3
          rw [hp]
          exact (truncate_smart_length _ _).trans (by omega)
        next heq3 => exact (truncate_smart_length _ _).trans (by omega)
  · split
    next cb heq => exact (format_code_preview_length _ _).trans (by omega)
    next heq =>
      split
      next s heq2 =>
        split
        next r heq3 =>
          obtain ⟨p, hp⟩ := firstPara_shape _ _ _ _ heq3
          rw [hp]
          exact (truncate_smart_length _ _).trans (by omega)
        next heq3 => exact (truncate_smart_length _ _).trans (by omega)
      next heq2 =>
        split
        next r heq3 =>
          obtain ⟨p, hp⟩ := firstPara_shape _ _ _ _ heq3
          rw [hp]
          exact (truncate_smart_length _ _).trans (by omega)
        next heq3 => exact (truncate_smart_length _ _).trans (by omega)

/-- C8 (amended): when the alias table is missing or malformed (no aliases
are loaded), `normalize_query` returns the stripped input as the canonical
term and, as alternates, exactly the spelling variations derived from the
query itself — figma-prefix stripping, last dotted segment, snake/camel
case toggles — deduplicated and excluding the canonical term; it never
raises (the model is a total function). -/
theorem c8_normalize_no_aliases (query : String) :
    normalize_query [] query =
      (pyStrip query, dedupExcl (pyStrip query) (generate_variations (pyStrip query))) := rfl

/-- C8, counterexample: with no aliases loaded, `normalize_query` is not a
no-op — a snake_case query yields its camelCase spelling as an alternate
term, so the claimed empty alternate list fails. -/
theorem c8_counterexample :
    (normalize_query [] "create_rectangle").2 = ["createRectangle"] ∧
    (normalize_query [] "create_rectangle").2 ≠ [] := by
  constructor
  · rfl
  · decide

/-- C9: the CrossLinker's symbol cache is keyed by (the hash of) the first
500 characters of the content, so after `extract_api_symbols_from_content`
has run on `t1`, running it on any `t2` that agrees with `t1` on the first
500 characters returns the symbol set computed from `t1`, even when the
texts differ beyond character 500. -/
theorem c9_cache_first500 (st : CLState) (t1 t2 : String)
    (h500 : t1.data.take 500 = t2.data.take 500)
    (hne : t2 ≠ "")
    (hfresh : st.sym_cache.find?
      (fun (kv : String × List String) => kv.1 = String.mk (t1.data.take 500)) = none) :
    (extract_api_symbols_from_content (extract_api_symbols_from_content st t1).2 t2).1 =
      (dedupKeepFirst ((crossPatternMatches t1.data).map String.mk)).filter symbolMeaningful := by
  have ht2d : t2.data ≠ [] := by
    intro h
    apply hne
    cases t2
    simp_all
  have ht1 : t1 ≠ "" := by
    intro h
    subst h
    apply ht2d
    cases ht2 : t2.data with
    | nil => rfl
    | cons c cs =>
      rw [ht2] at h500
      simp at h500
  have hkey : String.mk (t2.data.take 500) = String.mk (t1.data.take 500) := by rw [h500]
  have hcall1 : extract_api_symbols_from_content st t1 =
      ((dedupKeepFirst ((crossPatternMatches t1.data).map String.mk)).filter symbolMeaningful,
       { st with sym_cache := (String.mk (t1.data.take 500),
           (dedupKeepFirst ((crossPatternMatches t1.data).map String.mk)).filter
             symbolMeaningful) :: st.sym_cache }) := by
    unfold extract_api_symbols_from_content
    dsimp only
    rw [if_neg ht1, hfresh]
  rw [hcall1]
  unfold extract_api_symbols_from_content
  dsimp only
  rw [if_neg hne]
  rw [List.find?_cons_of_pos _ (by simp [hkey])]

set_option maxRecDepth 40000 in
/-- C9, witness: two 509-character contents agreeing on their first 500
characters (499 `a`s and a space) but naming different API symbols in
their tails; the second call returns the set computed from the first. -/
theorem c9_cache_first500_witness :
    (extract_api_symbols_from_content
        (extract_api_symbols_from_content emptyCLState
          (String.mk (List.replicate 499 'a' ++ (' ' :: "figma.one".data)))).2
        (String.mk (List.replicate 499 'a' ++ (' ' :: "figma.two".data)))).1 =
      (dedupKeepFirst ((crossPatternMatches
        (String.mk (List.replicate 499 'a' ++ (' ' :: "figma.one".data))).data).map
          String.mk)).filter symbolMeaningful :=
  c9_cache_first500 emptyCLState _ _ (by decide) (by decide) rfl

/-! ### C2 / C10: the expand fallback chain -/

theorem joinRows_mem {db : DB} {r : Chunk × Page} (h : r ∈ joinRows db) :
    r.1 ∈ db.chunks ∧ r.2 ∈ db.pages ∧ r.2.id = r.1.page_id := by
  unfold joinRows at h
  simp only [List.mem_flatMap, List.mem_map, List.mem_filter, decide_eq_true_eq] at h
  obtain ⟨c, hc, p, ⟨hp, hpid⟩, rfl⟩ := h
  exact ⟨hc, hp, hpid⟩

theorem expand_by_page_id_none {db : DB} {pid : String}
    (h : ∀ p ∈ db.pages, p.id ≠ pid) : expand_by_page_id db pid = none := by
  unfold expand_by_page_id
  have hf : db.pages.find? (fun p => p.id = pid) = none := by
    rw [List.find?_eq_none]
    intro p hp
    simpa using h p hp
  rw [hf]

theorem expand_by_chunk_id_none {db : DB} {cid : String} {w : Nat}
    (h : ∀ c ∈ db.chunks, c.chunk_id ≠ cid) : expand_by_chunk_id db cid w = none := by
  unfold expand_by_chunk_id
  have hf : (joinRows db).find? (fun r => r.1.chunk_id = cid) = none := by
    rw [List.find?_eq_none]
    intro r hr
    simpa using h r.1 (joinRows_mem hr).1
  rw [hf]

/-- A page that owns zero chunks yields no page expansion (the
`if not chunks: return None` branch). -/
theorem expand_by_page_id_none_of_no_chunks {db : DB} {pid : String}
    (h : ∀ c ∈ db.chunks, c.page_id ≠ pid) : expand_by_page_id db pid = none := by
  unfold expand_by_page_id
  cases hfind : db.pages.find? (fun p => p.id = pid) with
  | none => rfl
  | some q =>
    have hfilter : db.chunks.filter (fun c => c.page_id = pid) = [] := by
      rw [List.filter_eq_nil_iff]
      intro c hc
      simpa using h c hc
    rw [hfilter]
    rfl

theorem partial_match_nil {db : DB} {pre : String}
    (h : ∀ r ∈ joinRows db, sqlLike r.1.chunk_id pre = false) :
    (joinRows db).filter (fun r => sqlLike r.1.chunk_id pre) = [] := by
  rw [List.filter_eq_nil_iff]
  intro r hr
  simp [h r hr]

/-- C2 (amended): for every identifier present in neither the page nor the
chunk table, and whose leading 8 characters occur (LIKE-wise) in no chunk
identifier, `universal_expand` — for any requested expand type — returns
`success: false`, carries the original identifier and an explanatory
error, and names all three attempted methods: the resolved type, the
fallback type, and the partial match; it never raises (the model is a
total function). -/
theorem c2_expand_not_found (db : DB) (id_string expand_type : String) (w : Nat)
    (hp : ∀ p ∈ db.pages, p.id ≠ id_string)
    (hc : ∀ c ∈ db.chunks, c.chunk_id ≠ id_string)
    (hpm : ∀ r ∈ joinRows db,
      sqlLike r.1.chunk_id (String.mk (id_string.data.take 8)) = false) :
    (universal_expand db id_string expand_type w).success = false ∧
    (universal_expand db id_string expand_type w).id = some id_string ∧
    (universal_expand db id_string expand_type w).error =
      some ("Could not expand ID: " ++ id_string) ∧
    (universal_expand db id_string expand_type w).attempted_methods =
      [resolve_expand_type db id_string expand_type,
       fallback_type_of (resolve_expand_type db id_string expand_type),
       "partial_match"] := by
  have hA := expand_by_page_id_none hp
  have hB := @expand_by_chunk_id_none db id_string w hc
  have hC := partial_match_nil hpm
  unfold universal_expand
  dsimp only
  simp only [hA, hB, hC, Option.map_none', ite_self]
  simp

/-- C2, witness: an identifier absent from both tables of `dbC2` whose
8-character head matches no chunk id falls through to the structured
failure. -/
theorem c2_expand_not_found_witness :
    (universal_expand dbC2 "zz" "auto" 2).success = false ∧
    (universal_expand dbC2 "zz" "auto" 2).id = some "zz" ∧
    (universal_expand dbC2 "zz" "auto" 2).error = some ("Could not expand ID: " ++ "zz") ∧
    (universal_expand dbC2 "zz" "auto" 2).attempted_methods =
      [resolve_expand_type dbC2 "zz" "auto",
       fallback_type_of (resolve_expand_type dbC2 "zz" "auto"), "partial_match"] :=
  c2_expand_not_found dbC2 "zz" "auto" 2 (by decide) (by decide) (by decide)

/-- C2, counterexample: the claim as stated is false — an identifier
present in neither table can still come back with `success: true` when its
first 8 characters occur inside some chunk identifier (the partial-match
fallback fires). -/
theorem c2_counterexample :
    (∀ p ∈ dbC2.pages, p.id ≠ "abcdefghZZZ") ∧
    (∀ c ∈ dbC2.chunks, c.chunk_id ≠ "abcdefghZZZ") ∧
    (universal_expand dbC2 "abcdefghZZZ" "auto" 2).success = true ∧
    (universal_expand dbC2 "abcdefghZZZ" "auto" 2).method_used =
      some "partial_match_fallback" := by
  refine ⟨by decide, by decide, ?_, ?_⟩ <;> decide

/-- C10: a page row that owns zero chunks produces no page expansion, so
`universal_expand` on that identifier proceeds to the chunk and
partial-match fallbacks and — when those also find nothing — reports
`success: false` with all three methods named, even though the page row
exists. -/
theorem c10_empty_page_fallback (db : DB) (id : String) (w : Nat) (p : Page)
    (hp : p ∈ db.pages) (hpid : p.id = id)
    (hnoch : ∀ c ∈ db.chunks, c.page_id ≠ id)
    (hncid : ∀ c ∈ db.chunks, c.chunk_id ≠ id)
    (hpm : ∀ r ∈ joinRows db,
      sqlLike r.1.chunk_id (String.mk (id.data.take 8)) = false) :
    expand_by_page_id db id = none ∧
    (universal_expand db id "auto" w).success = false ∧
    (universal_expand db id "auto" w).attempted_methods =
      ["page", "chunk", "partial_match"] := by
  have hdet : detect_id_type db id = "page" := by
    unfold detect_id_type
    rw [if_pos]
    exact List.any_eq_true.mpr ⟨p, hp, by simp [hpid]⟩
  have hres : resolve_expand_type db id "auto" = "page" := by
    simp [resolve_expand_type, hdet]
  have hA := expand_by_page_id_none_of_no_chunks hnoch
  have hB := @expand_by_chunk_id_none db id w hncid
  have hC := partial_match_nil hpm
  refine ⟨hA, ?_, ?_⟩ <;>
  · unfold universal_expand
    dsimp only
    simp only [hres, hA, hB, hC, Option.map_none', ite_self]
    simp [fallback_type_of]

/-- C10, witness: `dbC10` holds the page `P1` with zero chunks; expanding
`P1` fails through all three methods. -/
theorem c10_empty_page_fallback_witness :
    expand_by_page_id dbC10 "P1" = none ∧
    (universal_expand dbC10 "P1" "auto" 2).success = false ∧
    (universal_expand dbC10 "P1" "auto" 2).attempted_methods =
      ["page", "chunk", "partial_match"] :=
  c10_empty_page_fallback dbC10 "P1" 2
    { id := "P1", title := "T", url := "u", sect := "plugin",
      source := "official", word_count := 0 }
    (by decide) rfl (by decide) (by decide) (by decide)

/-! ### C4: the chunk-expansion window -/

/-- In a list of chunks whose indices are exactly `range' s n`, the first
element satisfying a predicate that characterises the target is found at
the target's offset from `s`. -/
theorem findIdx?_range'_aux (pred : Chunk → Bool) :
    ∀ (F : List Chunk) (s n j : Nat) (tgt : Chunk),
      F.map Chunk.chunk_index = List.range' s n →
      tgt ∈ F → tgt.chunk_index = s + j →
      (∀ ch ∈ F, (pred ch = true ↔ ch = tgt)) →
      ∀ i, F.findIdx? pred i = some (i + j) := by
  intro F
  induction F with
  | nil => intro s n j tgt hmap htgt; simp at htgt
  | cons f F' ih =>
    intro s n j tgt hmap htgt hidx hpred i
    cases n with
    | zero => simp [List.range'] at hmap
    | succ n' =>
      rw [List.range'_succ] at hmap
      simp only [List.map_cons, List.cons.injEq] at hmap
      obtain ⟨hf, hmap'⟩ := hmap
      by_cases htf : f = tgt
      · have hts : tgt.chunk_index = s := htf ▸ hf
        have hj : j = 0 := by omega
        subst hj
        rw [List.findIdx?_cons, if_pos ((hpred f (by simp)).mpr htf)]
        simp
      · have hpf : pred f = false := by
          rcases hb : pred f with _ | _
          · rfl
          · exact absurd ((hpred f (by simp)).mp hb) htf
        have htgt' : tgt ∈ F' := by
          rcases List.mem_cons.mp htgt with h | h
          · exact absurd h.symm htf
          · exact h
        have hmemr : tgt.chunk_index ∈ List.range' (s + 1) n' := by
          rw [← hmap']
          exact List.mem_map_of_mem _ htgt'
        have hge : s + 1 ≤ tgt.chunk_index := (List.mem_range'_1.mp hmemr).1
        have hj1 : 1 ≤ j := by omega
        have hrec := ih (s + 1) n' (j - 1) tgt hmap' htgt' (by omega)
          (fun ch hch => hpred ch (by simp [hch])) (i + 1)
        rw [List.findIdx?_cons, if_neg (by simp [hpf]), hrec]
        congr 1
        omega

/-- C4: for a chunk at index `i` of a page whose chunks are contiguous
from `0` to `chunk_of - 1`, `expand_by_chunk_id` with window `w` reports
the window `[max(0, i-w), min(chunk_of-1, i+w)]` and places the target at
position `min w i` in the returned context. -/
theorem c4_chunk_window_position (db : DB) (c : Chunk) (w : Nat)
    (hmem : c ∈ db.chunks)
    (hnd : db.chunks.Nodup)
    (hpage : ∃ p ∈ db.pages, p.id = c.page_id)
    (hids : ∀ c1 ∈ db.chunks, ∀ c2 ∈ db.chunks, c1.chunk_id = c2.chunk_id → c1 = c2)
    (hsame : ∀ ch ∈ db.chunks, ch.page_id = c.page_id →
      ch.chunk_of = c.chunk_of ∧ ch.chunk_index < c.chunk_of)
    (hcont : ∀ k, k < c.chunk_of →
      ∃ ch ∈ db.chunks, ch.page_id = c.page_id ∧ ch.chunk_index = k)
    (hidxU : ∀ c1 ∈ db.chunks, ∀ c2 ∈ db.chunks, c1.page_id = c.page_id →
      c2.page_id = c.page_id → c1.chunk_index = c2.chunk_index → c1 = c2) :
    ∃ r, expand_by_chunk_id db c.chunk_id w = some r ∧
      r.target_position_in_context = some (min w c.chunk_index) ∧
      r.context_start_index = max 0 ((c.chunk_index : Int) - w) ∧
      r.context_end_index = min ((c.chunk_of : Int) - 1) ((c.chunk_index : Int) + w) := by
  have hi_lt : c.chunk_index < c.chunk_of := (hsame c hmem rfl).2
  obtain ⟨p, hpmem, hpid⟩ := hpage
  have hrow : (c, p) ∈ joinRows db := by
    unfold joinRows
    simp only [List.mem_flatMap, List.mem_map, List.mem_filter]
    exact ⟨c, hmem, p, ⟨hpmem, by simp [hpid]⟩, rfl⟩
  obtain ⟨r0, hr0⟩ : ∃ r0, (joinRows db).find? (fun r => r.1.chunk_id = c.chunk_id) = some r0 :=
    Option.isSome_iff_exists.mp (List.find?_isSome.mpr ⟨(c, p), hrow, by simp⟩)
  obtain ⟨c', p'⟩ := r0
  have hr0id : c'.chunk_id = c.chunk_id := by simpa using List.find?_some hr0
  have hr0mem : c' ∈ db.chunks := (joinRows_mem (List.mem_of_find?_eq_some hr0)).1
  have hc' : c' = c := hids _ hr0mem _ hmem hr0id
  have hstart : max 0 ((c.chunk_index : Int) - w) = ((c.chunk_index - w : Nat) : Int) := by
    omega
  have hstop : min ((c.chunk_of : Int) - 1) ((c.chunk_index : Int) + w)
      = ((min (c.chunk_of - 1) (c.chunk_index + w) : Nat) : Int) := by
    omega
  have hsi : c.chunk_index - w ≤ c.chunk_index := by omega
  have hie : c.chunk_index ≤ min (c.chunk_of - 1) (c.chunk_index + w) := by omega
  set flt := db.chunks.filter (fun ch => ch.page_id = c.page_id ∧
      max 0 ((c.chunk_index : Int) - w) ≤ (ch.chunk_index : Int) ∧
      (ch.chunk_index : Int) ≤ min ((c.chunk_of : Int) - 1) ((c.chunk_index : Int) + w))
    with hfltdef
  have hfltmem : ∀ ch, ch ∈ flt ↔
      (ch ∈ db.chunks ∧ ch.page_id = c.page_id ∧ c.chunk_index - w ≤ ch.chunk_index ∧
        ch.chunk_index ≤ min (c.chunk_of - 1) (c.chunk_index + w)) := by
    intro ch
    rw [hfltdef, List.mem_filter]
    simp only [decide_eq_true_eq, hstart, hstop]
    constructor
    · rintro ⟨h1, h2, h3, h4⟩
      exact ⟨h1, h2, by omega, by omega⟩
    · rintro ⟨h1, h2, h3, h4⟩
      exact ⟨h1, h2, by omega, by omega⟩
  set F := List.insertionSort (keyLeNat Chunk.chunk_index) flt with hFdef
  have hFperm : F.Perm flt := List.perm_insertionSort _ _
  have hFsorted : List.Sorted (keyLeNat Chunk.chunk_index) F :=
    List.sorted_insertionSort _ _
  have hFnodup : F.Nodup := (hFperm.symm.nodup (hnd.filter _))
  have hFsub : ∀ ch ∈ F, ch ∈ db.chunks ∧ ch.page_id = c.page_id ∧
      c.chunk_index - w ≤ ch.chunk_index ∧
      ch.chunk_index ≤ min (c.chunk_of - 1) (c.chunk_index + w) := by
    intro ch hch
    exact (hfltmem ch).mp (hFperm.mem_iff.mp hch)
  have hmapNodup : (F.map Chunk.chunk_index).Nodup := by
    apply List.Nodup.map_on _ hFnodup
    intro x hx y hy hxy
    exact hidxU x (hFsub x hx).1 y (hFsub y hy).1 (hFsub x hx).2.1 (hFsub y hy).2.1 hxy
  have hmapSortedLt : List.Sorted (· < ·) (F.map Chunk.chunk_index) :=
    List.Sorted.lt_of_le (List.Pairwise.map _ (fun a b h => h) hFsorted) hmapNodup
  have hmapmem : ∀ k, k ∈ F.map Chunk.chunk_index ↔
      k ∈ List.range' (c.chunk_index - w)
        (min (c.chunk_of - 1) (c.chunk_index + w) + 1 - (c.chunk_index - w)) := by
    intro k
    rw [List.mem_range'_1, List.mem_map]
    constructor
    · rintro ⟨ch, hch, rfl⟩
      have := hFsub ch hch
      omega
    · rintro ⟨hks, hke⟩
      have hklt : k < c.chunk_of := by omega
      obtain ⟨ch, hchmem, hchpg, hchidx⟩ := hcont k hklt
      refine ⟨ch, ?_, hchidx⟩
      rw [hFperm.mem_iff, hfltmem]
      exact ⟨hchmem, hchpg, by omega, by omega⟩
  have hrangeLt : List.Sorted (· < ·)
      (List.range' (c.chunk_index - w)
        (min (c.chunk_of - 1) (c.chunk_index + w) + 1 - (c.chunk_index - w))) :=
    List.pairwise_lt_range' _ _
  have hmapF : F.map Chunk.chunk_index = List.range' (c.chunk_index - w)
      (min (c.chunk_of - 1) (c.chunk_index + w) + 1 - (c.chunk_index - w)) :=
    List.eq_of_perm_of_sorted
      ((List.perm_ext_iff_of_nodup hmapNodup (List.nodup_range' _ _)).mpr hmapmem)
      hmapSortedLt hrangeLt
  have hcF : c ∈ F := by
    rw [hFperm.mem_iff, hfltmem]
    exact ⟨hmem, rfl, hsi, hie⟩
  have hpredIff : ∀ ch ∈ F, (((ch.chunk_id = c.chunk_id : Bool)) = true ↔ ch = c) := by
    intro ch hch
    simp only [decide_eq_true_eq]
    exact ⟨fun h => hids ch (hFsub ch hch).1 c hmem h, fun h => by rw [h]⟩
  have hfind := findIdx?_range'_aux (fun ch => ch.chunk_id = c.chunk_id) F
    (c.chunk_index - w)
    (min (c.chunk_of - 1) (c.chunk_index + w) + 1 - (c.chunk_index - w))
    (c.chunk_index - (c.chunk_index - w)) c hmapF hcF (by omega) hpredIff 0
  have hFne : F.isEmpty = false := by
    cases hF : F with
    | nil => rw [hF] at hcF; simp at hcF
    | cons a l => rfl
  unfold expand_by_chunk_id
  rw [hr0]
  dsimp only
  rw [hc']
  rw [← hfltdef, ← hFdef]
  rw [dif_neg (by simp [hFne])]
  refine ⟨_, rfl, ?_, rfl, rfl⟩
  simp only []
  rw [hfind]
  congr 1
  omega

/-- C4 witness: in the three-chunk store `dbC4`, expanding the middle chunk
with window 5 puts the target at position 1 in a context spanning
indices 0 through 2. -/
theorem c4_chunk_window_position_witness :
    ∃ r, expand_by_chunk_id dbC4 "c1" 5 = some r ∧
      r.target_position_in_context = some 1 ∧
      r.context_start_index = 0 ∧
      r.context_end_index = 2 :=
  c4_chunk_window_position dbC4
    { chunk_id := "c1", page_id := "P1", chunk_index := 1, chunk_of := 3,
      text := "b", n_tokens := 1 } 5
    (by decide) (by decide) (by decide) (by decide) (by decide)
    (by decide) (by decide)

/-! ### The unified-search pipeline: enrichment preserves result cores -/

/-- `stmap` keeps the list length. -/
theorem stmap_fst_length {σ α : Type} (f : σ → α → α × σ) :
    ∀ (s : σ) (l : List α), ((stmap f s l).1).length = l.length := by
  intro s l
  induction l generalizing s with
  | nil => rfl
  | cons x xs ih => simp [stmap, ih]

/-- A projection untouched by the step function is untouched by `stmap`. -/
theorem stmap_map_proj {σ β : Type} (f : σ → Cand → Cand × σ) (g : Cand → β)
    (h : ∀ s x, g ((f s x).1) = g x) :
    ∀ (s : σ) (l : List Cand), ((stmap f s l).1).map g = l.map g := by
  intro s l
  induction l generalizing s with
  | nil => rfl
  | cons x xs ih => simp [stmap, h, ih]

theorem clOfficialEnrich_core (db : DB) (s : CLState) (r : Cand) :
    candCore (clOfficialEnrich db s r).1 = candCore r := by
  unfold clOfficialEnrich
  dsimp only
  split_ifs <;> rfl

theorem clCommunityEnrich_core (db : DB) (s : CLState) (r : Cand) :
    candCore (clCommunityEnrich db s r).1 = candCore r := by
  unfold clCommunityEnrich
  dsimp only
  split_ifs <;> rfl

theorem setPreviewFields_core (q : String) (r : Cand) :
    candCore (setPreviewFields q r) = candCore r := by
  unfold setPreviewFields
  dsimp only
  split_ifs <;> rfl

/-- The cross-link pass only fills `cross_links`: the core of every result
is unchanged, position by position. -/
theorem add_cross_links_map_core (db : DB) (st : CLState) (l : List Cand) (q : String) :
    ((add_cross_links db st l q).1).map candCore = l.map candCore := by
  unfold add_cross_links
  split_ifs with h
  · rfl
  · dsimp only
    rw [stmap_map_proj _ _ (fun s x => clCommunityEnrich_core db s x),
        stmap_map_proj _ _ (fun s x => clOfficialEnrich_core db s x)]

theorem map_chunk_id_of_map_core {l1 l2 : List Cand}
    (h : l1.map candCore = l2.map candCore) :
    l1.map Cand.chunk_id = l2.map Cand.chunk_id := by
  have h2 := congrArg (List.map Prod.fst) h
  simpa [List.map_map, Function.comp] using h2

/-! ### The deduplication loop -/

/-- Everything `dedupeByChunkId` keeps is a first occurrence: its chunk id
is not in `seen` and no earlier element of the input carries the same id. -/
theorem dedupeByChunkId_firstOcc :
    ∀ (l : List Cand) (seen : List String) (a : Cand),
      a ∈ dedupeByChunkId seen l →
      a.chunk_id ∉ seen ∧
        ∃ t1 t2, l = t1 ++ a :: t2 ∧ ∀ b ∈ t1, b.chunk_id ≠ a.chunk_id := by
  intro l
  induction l with
  | nil => intro seen a ha; simp [dedupeByChunkId] at ha
  | cons x xs ih =>
    intro seen a ha
    unfold dedupeByChunkId at ha
    split_ifs at ha with hx
    · obtain ⟨hns, t1, t2, heq, hne⟩ := ih seen a ha
      refine ⟨hns, x :: t1, t2, by rw [heq]; rfl, ?_⟩
      intro b hb
      rcases List.mem_cons.mp hb with rfl | hb
      · intro hcontra
        rw [hcontra] at hx
        exact hns hx
      · exact hne b hb
    · rcases List.mem_cons.mp ha with rfl | ha
      · exact ⟨hx, [], xs, rfl, by simp⟩
      · obtain ⟨hns, t1, t2, heq, hne⟩ := ih _ a ha
        have hxa : x.chunk_id ≠ a.chunk_id := by
          intro hc
          exact hns (by rw [← hc]; exact List.mem_cons_self _ _)
        refine ⟨fun hc => hns (List.mem_cons_of_mem _ hc), x :: t1, t2,
          by rw [heq]; rfl, ?_⟩
        intro b hb
        rcases List.mem_cons.mp hb with rfl | hb
        · exact hxa
        · exact hne b hb

/-- The chunk ids surviving `dedupeByChunkId` are pairwise distinct and
disjoint from `seen`. -/
theorem dedupeByChunkId_nodup :
    ∀ (l : List Cand) (seen : List String),
      ((dedupeByChunkId seen l).map Cand.chunk_id).Nodup ∧
        ∀ i ∈ (dedupeByChunkId seen l).map Cand.chunk_id, i ∉ seen := by
  intro l
  induction l with
  | nil => intro seen; simp [dedupeByChunkId]
  | cons x xs ih =>
    intro seen
    unfold dedupeByChunkId
    split_ifs with hx
    · exact ih seen
    · obtain ⟨hnd, hni⟩ := ih (x.chunk_id :: seen)
      simp only [List.map_cons, List.nodup_cons]
      refine ⟨⟨fun hmem => ?_, hnd⟩, ?_⟩
      · exact (hni _ hmem) (List.mem_cons_self _ _)
      · intro i hi
        rcases List.mem_cons.mp hi with rfl | hi
        · exact hx
        · exact fun hc => hni i hi (List.mem_cons_of_mem _ hc)

theorem dedupeByChunkId_ne_nil {l : List Cand} (h : l ≠ []) :
    dedupeByChunkId [] l ≠ [] := by
  match l, h with
  | x :: xs, _ => simp [dedupeByChunkId]

/-! ### The keyword stage never fails on a word-bearing corpus -/

theorem keywordCands_ok (q : String) :
    ∀ rows : List (Chunk × Page),
      (∀ r ∈ rows, (splitWs (lowerList r.1.text.data)).length ≠ 0) →
      ∃ cs, keywordCands q rows = .ok cs := by
  intro rows
  induction rows with
  | nil => exact fun _ => ⟨[], rfl⟩
  | cons r rs ih =>
    intro h
    obtain ⟨cs, hcs⟩ := ih (fun x hx => h x (List.mem_cons_of_mem _ hx))
    have hw := h r (List.mem_cons_self _ _)
    have hsc : keywordScore q r.1.text =
        .ok (min (mkRat (countOccur (lowerList r.1.text.data) (lowerList q.data))
          ((splitWs (lowerList r.1.text.data)).length)) 1) := by
      unfold keywordScore
      dsimp only
      rw [if_neg hw]
    refine ⟨{ chunk_id := r.1.chunk_id, page_id := r.1.page_id,
              score := min (mkRat (countOccur (lowerList r.1.text.data) (lowerList q.data))
                ((splitWs (lowerList r.1.text.data)).length)) 1,
              text := r.1.text, url := r.2.url, sect := r.2.sect,
              title := r.2.title } :: cs, ?_⟩
    unfold keywordCands
    rw [hsc, hcs]
    rfl

theorem sortRows_take_mem {l : List (Chunk × Page)} {k : Nat} {r : Chunk × Page}
    (h : r ∈ (sortRows l).take k) : r ∈ l := by
  have hmem : r ∈ sortRows l := (List.take_sublist _ _).subset h
  exact (List.perm_insertionSort _ _).mem_iff.mp hmem

theorem keywordRows_chunks {db : DB} {q sect : String} {k : Nat} {r : Chunk × Page}
    (h : r ∈ keywordRows db q sect k) : r.1 ∈ db.chunks := by
  unfold keywordRows at h
  have hj : r ∈ joinRows db := by
    split_ifs at h with h1 h2
    · unfold officialQuery at h
      exact (List.mem_filter.mp (sortRows_take_mem h)).1
    · unfold communityQuery at h
      exact (List.mem_filter.mp (sortRows_take_mem h)).1
    · exact (List.mem_filter.mp (sortRows_take_mem h)).1
  exact (joinRows_mem hj).1

theorem keyword_search_ok {db : DB} (q sect : String) (k : Nat)
    (hwords : ∀ c ∈ db.chunks, (splitWs (lowerList c.text.data)).length ≠ 0) :
    ∃ cs, keyword_search db q sect k = .ok cs := by
  unfold keyword_search
  exact keywordCands_ok q _ (fun r hr => hwords r.1 (keywordRows_chunks hr))

theorem keywordStage_ok {db : DB} (q sect : String) (k : Nat)
    (hwords : ∀ c ∈ db.chunks, (splitWs (lowerList c.text.data)).length ≠ 0) :
    ∃ cs, keywordStage db q sect k = .ok cs := by
  unfold keywordStage
  obtain ⟨cs1, h1⟩ :=
    @keyword_search_ok db q (if sect ≠ "auto" then sect else "official") k hwords
  rw [h1]
  dsimp only
  by_cases hc : cs1.isEmpty ∧ sect = "auto"
  · rw [if_pos hc]
    exact @keyword_search_ok db q "community_plugin" k hwords
  · rw [if_neg hc]
    exact ⟨cs1, rfl⟩

/-- Under a word-bearing corpus with a joined `figma.`-mentioning chunk,
the cascade returns without an exception and gathers at least one
candidate. -/
theorem gatherCandidates_ok_ne (cos : List ℚ → List ℚ → ℚ)
    (emb : String → String → Option (List ℚ))
    (rand : List (Chunk × Page) → List (Chunk × Page)) (db : DB)
    (q sect : String) (k : Nat) (model : String)
    (htop : 1 ≤ k)
    (hwords : ∀ c ∈ db.chunks, (splitWs (lowerList c.text.data)).length ≠ 0)
    (hfig : ∃ c ∈ db.chunks, sqlLike c.text "figma." = true ∧
      ∃ p ∈ db.pages, p.id = c.page_id)
    (hrand : ∀ l, (rand l).Perm l) :
    ∃ all strat, gatherCandidates cos emb rand db q sect k model = .ok (all, strat) ∧
      all ≠ [] := by
  have hfz : fuzzy_fallback_search rand db q k ≠ [] := by
    obtain ⟨c, hcmem, hlike, p, hpmem, hpid⟩ := hfig
    have hrow : (c, p) ∈ (joinRows db).filter (fun r => sqlLike r.1.text "figma.") := by
      rw [List.mem_filter]
      constructor
      · unfold joinRows
        simp only [List.mem_flatMap, List.mem_map, List.mem_filter]
        exact ⟨c, hcmem, p, ⟨hpmem, by simp [hpid]⟩, rfl⟩
      · simpa using hlike
    have hne : (rand ((joinRows db).filter (fun r => sqlLike r.1.text "figma."))) ≠ [] := by
      intro hc
      have := (hrand _).mem_iff.mpr hrow
      rw [hc] at this
      simp at this
    unfold fuzzy_fallback_search
    intro hc
    rw [List.map_eq_nil_iff, List.take_eq_nil_iff] at hc
    rcases hc with hc | hc
    · omega
    · exact hne hc
  unfold gatherCandidates
  dsimp only
  set s1 := if sect = "auto" ∨ sect = "official" then
      (semantic_search cos emb db q "official" k model).map (tagSemantic "official_docs")
    else ([] : List Cand) with hs1
  set s2 := if s1.length < 3 ∧ (sect = "auto" ∨ sect = "community_plugin") then
      (semantic_search cos emb db q "community_plugin" (max 3 (k - s1.length))
        model).map (tagSemantic "community_code")
    else ([] : List Cand) with hs2
  set ap := apiStage db (extract_api_symbols_from_query q) with hap
  by_cases h3 : (s1 ++ s2 ++ ap.1).length = 0
  · rw [if_pos h3]
    obtain ⟨kw, hkw⟩ := @keywordStage_ok db q sect k hwords
    rw [hkw]
    dsimp only
    by_cases h4 : (s1 ++ s2 ++ ap.1 ++ List.map tagKeyword kw).length = 0
    · rw [if_pos h4]
      refine ⟨_, _, rfl, ?_⟩
      intro hc
      rw [List.append_eq_nil] at hc
      have hc2 := hc.2
      rw [List.map_eq_nil_iff] at hc2
      exact hfz hc2
    · rw [if_neg h4]
      refine ⟨_, _, rfl, ?_⟩
      intro hc
      rw [hc] at h4
      simp at h4
  · rw [if_neg h3]
    refine ⟨_, _, rfl, ?_⟩
    intro hc
    rw [hc] at h3
    simp at h3

/-- C1, counterexample: `dbC3` contains a `figma.`-mentioning chunk (`k1`)
joined to an existing page, and `top_k = 5 ≥ 1`, yet `unified_search`
propagates the keyword stage's `ZeroDivisionError` (the whitespace-only
chunk `k0` has no words) instead of returning 1–5 results. -/
theorem c1_counterexample :
    (dbC3.chunks.map Chunk.text).any (fun t => sqlLike t "figma.") = true ∧
    unified_search (fun _ _ => 0) (fun _ _ => none) id emptyCLState dbC3 "" "auto" 5
        = .error "ZeroDivisionError" :=
  ⟨rfl, rfl⟩

/-- C1 (amended): for every query and section, if the limit is at least 1,
every stored chunk text holds at least one word (without this the keyword
stage can raise `ZeroDivisionError`), and the corpus joins at least one
`figma.`-mentioning chunk to an existing page, then `unified_search`
returns a results list with between 1 and `top_k` entries. -/
theorem c1_fuzzy_guarantees_results (cos : List ℚ → List ℚ → ℚ)
    (emb : String → String → Option (List ℚ))
    (rand : List (Chunk × Page) → List (Chunk × Page)) (clState : CLState)
    (db : DB) (query sectionArg : String) (top_k : Nat) (model : String)
    (htop : 1 ≤ top_k)
    (hwords : ∀ c ∈ db.chunks, (splitWs (lowerList c.text.data)).length ≠ 0)
    (hfig : ∃ c ∈ db.chunks, sqlLike c.text "figma." = true ∧
      ∃ p ∈ db.pages, p.id = c.page_id)
    (hrand : ∀ l, (rand l).Perm l) :
    ∃ out st, unified_search cos emb rand clState db query sectionArg top_k model
        = .ok (out, st) ∧
      1 ≤ out.results.length ∧ out.results.length ≤ top_k := by
  obtain ⟨all, strat, hg, hne⟩ :=
    gatherCandidates_ok_ne cos emb rand db query sectionArg top_k model htop hwords hfig hrand
  have hdne : dedupeByChunkId [] all ≠ [] := dedupeByChunkId_ne_nil hne
  have hdpos : 0 < (dedupeByChunkId [] all).length := List.length_pos.mpr hdne
  have hslen : (List.insertionSort candSortGe (dedupeByChunkId [] all)).length
      = (dedupeByChunkId [] all).length := (List.perm_insertionSort _ _).length_eq
  have hacl := congrArg List.length (add_cross_links_map_core db clState
    ((List.insertionSort candSortGe (dedupeByChunkId [] all)).take top_k) query)
  rw [List.length_map, List.length_map] at hacl
  unfold unified_search
  rw [hg]
  dsimp only
  refine ⟨_, _, rfl, ?_, ?_⟩
  · rw [List.length_map, hacl, List.length_take, hslen]
    omega
  · rw [List.length_map, hacl, List.length_take]
    omega

/-- C1 witness: on the one-chunk `figma.`-corpus `dbC1` every hypothesis of
the amended statement holds concretely, so the search succeeds with between
one and five results. -/
theorem c1_fuzzy_guarantees_results_witness :
    ∃ out st, unified_search (fun _ _ => 0) (fun _ _ => none) id emptyCLState dbC1
        "anything" "auto" 5 "text-embedding-3-small" = .ok (out, st) ∧
      1 ≤ out.results.length ∧ out.results.length ≤ 5 :=
  c1_fuzzy_guarantees_results (fun _ _ => 0) (fun _ _ => none) id emptyCLState dbC1
    "anything" "auto" 5 "text-embedding-3-small" (by decide) (by decide) (by decide)
    (fun l => List.Perm.refl l)

/-- C5: the results of `unified_search` contain no two entries sharing a
chunk id, and each result's core fields are those of the first candidate
carrying its chunk id in cascade (strategy) order. -/
theorem c5_dedupe_first_occurrence (cos : List ℚ → List ℚ → ℚ)
    (emb : String → String → Option (List ℚ))
    (rand : List (Chunk × Page) → List (Chunk × Page)) (clState : CLState)
    (db : DB) (query sectionArg : String) (top_k : Nat) (model : String) :
    ((resultsOf (unified_search cos emb rand clState db query sectionArg top_k model)).map
        Cand.chunk_id).Nodup ∧
    (resultsOf (unified_search cos emb rand clState db query sectionArg top_k model)).Forall
      (fun r => ∃ a,
        isFirstOccIn
          (gatheredOf (gatherCandidates cos emb rand db query sectionArg top_k model)) a ∧
        candCore r = candCore a) := by
  cases hg : gatherCandidates cos emb rand db query sectionArg top_k model with
  | error e =>
    unfold unified_search
    rw [hg]
    dsimp only [resultsOf]
    exact ⟨List.nodup_nil, trivial⟩
  | ok pr =>
    obtain ⟨all, strat⟩ := pr
    unfold unified_search
    rw [hg]
    dsimp only [resultsOf, gatheredOf]
    set F := (List.insertionSort candSortGe (dedupeByChunkId [] all)).take top_k with hF
    have hcore : ((add_cross_links db clState F query).1.map (setPreviewFields query)).map candCore
        = F.map candCore := by
      rw [List.map_map]
      have hco : (candCore ∘ setPreviewFields query) = candCore :=
        funext (fun r => setPreviewFields_core query r)
      rw [hco]
      exact add_cross_links_map_core db clState F query
    have hndF : (F.map Cand.chunk_id).Nodup := by
      have h1 := (dedupeByChunkId_nodup all []).1
      have h2 : ((List.insertionSort candSortGe (dedupeByChunkId [] all)).map
          Cand.chunk_id).Nodup :=
        (((List.perm_insertionSort _ _).map Cand.chunk_id).nodup_iff).mpr h1
      exact h2.sublist ((List.take_sublist _ _).map _)
    constructor
    · rw [map_chunk_id_of_map_core hcore]
      exact hndF
    · rw [List.forall_iff_forall_mem]
      intro r hr
      obtain ⟨a0, ha0, ha0r⟩ := List.mem_map.mp hr
      have hcr : candCore r = candCore a0 := by
        rw [← ha0r]
        exact setPreviewFields_core query a0
      have hmm : candCore a0 ∈ F.map candCore := by
        rw [← add_cross_links_map_core db clState F query]
        exact List.mem_map_of_mem _ ha0
      obtain ⟨a, haF, hac⟩ := List.mem_map.mp hmm
      have haS : a ∈ List.insertionSort candSortGe (dedupeByChunkId [] all) :=
        (List.take_sublist _ _).subset haF
      have haD : a ∈ dedupeByChunkId [] all :=
        (List.perm_insertionSort _ _).mem_iff.mp haS
      obtain ⟨_, t1, t2, heq, hne⟩ := dedupeByChunkId_firstOcc all [] a haD
      exact ⟨a, ⟨t1, t2, heq, hne⟩, hcr.trans hac.symm⟩

/-- C6: the results of `unified_search` are pairwise ordered by the final
ranking relation — non-increasing score, and among equal scores an exact
API-symbol match never follows a non-match. -/
theorem c6_results_sorted (cos : List ℚ → List ℚ → ℚ)
    (emb : String → String → Option (List ℚ))
    (rand : List (Chunk × Page) → List (Chunk × Page)) (clState : CLState)
    (db : DB) (query sectionArg : String) (top_k : Nat) (model : String) :
    (resultsOf (unified_search cos emb rand clState db query sectionArg top_k model)).Pairwise
      candSortGe := by
  cases hg : gatherCandidates cos emb rand db query sectionArg top_k model with
  | error e =>
    unfold unified_search
    rw [hg]
    dsimp only [resultsOf]
    exact List.Pairwise.nil
  | ok pr =>
    obtain ⟨all, strat⟩ := pr
    unfold unified_search
    rw [hg]
    dsimp only [resultsOf]
    set F := (List.insertionSort candSortGe (dedupeByChunkId [] all)).take top_k with hF
    have hcore : ((add_cross_links db clState F query).1.map (setPreviewFields query)).map candCore
        = F.map candCore := by
      rw [List.map_map]
      have hco : (candCore ∘ setPreviewFields query) = candCore :=
        funext (fun r => setPreviewFields_core query r)
      rw [hco]
      exact add_cross_links_map_core db clState F query
    have hsF : F.Pairwise candSortGe :=
      List.Pairwise.sublist (List.take_sublist _ _)
        (List.sorted_insertionSort candSortGe (dedupeByChunkId [] all))
    have h2 : (((add_cross_links db clState F query).1.map (setPreviewFields query)).map
        candCore).Pairwise (fun t1 t2 =>
          t2.2.2.1 < t1.2.2.1 ∨ (t2.2.2.1 = t1.2.2.1 ∧ t2.2.2.2.2 ≤ t1.2.2.2.2)) := by
      rw [hcore]
      exact List.pairwise_map.mpr hsF
    have h3 := List.pairwise_map.mp h2
    exact h3

/-- C3: the stages of `unified_search` are not isolated.  On a store whose
keyword rows include a chunk with no words, the keyword stage's
`ZeroDivisionError` (`count / len(text.split())`) propagates out of
`unified_search` — there is no handler around the keyword stage — even
though the fuzzy-fallback stage that would have run next had a result
(`k1`, the `figma.`-mentioning chunk) to offer. -/
theorem c3_stage_not_isolated :
    unified_search (fun _ _ => 0) (fun _ _ => none) id emptyCLState dbC3 "" "auto" 5
      = .error "ZeroDivisionError" ∧
    (fuzzy_fallback_search id dbC3 "" 5).map Cand.chunk_id = ["k1"] :=
  ⟨rfl, rfl⟩

/-- C7, counterexample: the claim's bound `max_length + 1` fails on the
code-block branch.  The text's leading `figma.`-call makes pattern 5 of
`extract_code_blocks` fire, the 28-character block exceeds the budget 10,
no whole line fits 80% of it, and `format_code_preview` returns the
10-character prefix plus a three-character `...`: 13 > 10 + 1 characters. -/
theorem c7_counterexample :
    (create_smart_preview "figma.createRectangleAndMore extra tail words" "" 10).length = 13 ∧
    ¬ ((create_smart_preview "figma.createRectangleAndMore extra tail words" "" 10).length
        ≤ 10 + 1) := by
  constructor
  · rfl
  · decide

end FigmaMCP
